import Mathlib

/-!
# Verification of the geneticArtC GA core

Shallow embedding of the genetic-algorithm core of the `geneticArtC`
repository (files `src/genetic_art.c`, `src/genetic_structs.c` and the
headers under `includes/`), together with proofs and refutations of the
behavioural claims of its specification.

Modelling conventions:
* ARGB8888 pixels are natural numbers; channel extraction mirrors the C
  shifts and masks (`(p >> 16) & 0xFF` becomes `p / 2^16 % 256`).
* C `double`/`float` arithmetic is modelled over `ℚ` (exact arithmetic);
  a C cast `(Uint8)x` / `(int)x` of a non-negative value is `Int.floor`.
* C `int` index arithmetic is modelled over `ℤ`; reads of `Chromosome*`
  arrays become `List.getD` at `Int.toNat` of the index.
-/

namespace GeneticArt

/-! ## Pixel model (ARGB8888 words) -/

/-- Alpha channel of an ARGB8888 word: bits 24..31. -/
def pxA (p : ℕ) : ℕ := p / 2 ^ 24 % 256

/-- Red channel of an ARGB8888 word: bits 16..23 (`(p >> 16) & 0xFF`). -/
def pxR (p : ℕ) : ℕ := p / 2 ^ 16 % 256

/-- Green channel of an ARGB8888 word: bits 8..15 (`(p >> 8) & 0xFF`). -/
def pxG (p : ℕ) : ℕ := p / 2 ^ 8 % 256

/-- Blue channel of an ARGB8888 word: bits 0..7 (`p & 0xFF`). -/
def pxB (p : ℕ) : ℕ := p % 256

/-- `SDL_MapRGBA` for the ARGB8888 format: compose four 8-bit channels
into one word, `(a << 24) | (r << 16) | (g << 8) | b`.  The `% 256`
reflects the `Uint8` type of the C arguments. -/
def mkARGB (a r g b : ℕ) : ℕ :=
  (a % 256) * 2 ^ 24 + (r % 256) * 2 ^ 16 + (g % 256) * 2 ^ 8 + b % 256

theorem pxA_mkARGB (a r g b : ℕ) : pxA (mkARGB a r g b) = a % 256 := by
  unfold pxA mkARGB
  omega

theorem pxR_mkARGB (a r g b : ℕ) : pxR (mkARGB a r g b) = r % 256 := by
  unfold pxR mkARGB
  omega

theorem pxG_mkARGB (a r g b : ℕ) : pxG (mkARGB a r g b) = g % 256 := by
  unfold pxG mkARGB
  omega

theorem pxB_mkARGB (a r g b : ℕ) : pxB (mkARGB a r g b) = b % 256 := by
  unfold pxB mkARGB
  omega

/-! ## Fitness (scalar path), from `fitness_scalar` in `genetic_art.c` -/

/-- Squared R,G,B difference contributed by one pixel pair, exactly the
loop body of `fitness_scalar`:
`dr = ((c>>16)&0xFF) - ((r>>16)&0xFF)` etc., then `dr*dr+dg*dg+db*db`. -/
def sqDiff3 (c r : ℕ) : ℤ :=
  ((pxR c : ℤ) - (pxR r : ℤ)) * ((pxR c : ℤ) - (pxR r : ℤ)) +
    ((pxG c : ℤ) - (pxG r : ℤ)) * ((pxG c : ℤ) - (pxG r : ℤ)) +
    ((pxB c : ℤ) - (pxB r : ℤ)) * ((pxB c : ℤ) - (pxB r : ℤ))

/-- The accumulated error of `fitness_scalar`: the `for` loop over
`i < count_px` summing `sqDiff3` of the i-th pixels.  Each addend is an
integer and the running C `double` stays far below 2^53 for any `int`
pixel count, so exact integer accumulation models the C loop. -/
def fitness_err (cand ref : List ℕ) (count : ℕ) : ℤ :=
  (List.range count).foldl (fun e i => e + sqDiff3 (cand.getD i 0) (ref.getD i 0)) 0

/-- `fitness_scalar(cand, ref, count_px)`: the accumulated squared error
divided by the pixel count (`return err / count_px;` — no special case
for `count_px == 0` exists in the source). -/
def fitness_scalar (cand ref : List ℕ) (count : ℕ) : ℚ :=
  (fitness_err cand ref count : ℚ) / (count : ℚ)

theorem fitness_err_eq_sum (cand ref : List ℕ) (count : ℕ) :
    fitness_err cand ref count =
      ((List.range count).map (fun i => sqDiff3 (cand.getD i 0) (ref.getD i 0))).sum := by
  unfold fitness_err
  induction count with
  | zero => simp
  | succ n ih =>
      rw [List.range_succ, List.foldl_append, List.map_append, List.sum_append, ih]
      simp

theorem sqDiff3_nonneg (c r : ℕ) : 0 ≤ sqDiff3 c r := by
  unfold sqDiff3
  nlinarith [mul_self_nonneg ((pxR c : ℤ) - pxR r),
    mul_self_nonneg ((pxG c : ℤ) - pxG r), mul_self_nonneg ((pxB c : ℤ) - pxB r)]

theorem sum_int_nonneg_eq_zero {l : List ℤ} (h : ∀ x ∈ l, 0 ≤ x) (hs : l.sum = 0) :
    ∀ x ∈ l, x = 0 := by
  induction l with
  | nil => intro x hx; cases hx
  | cons a t ih =>
      have ha : 0 ≤ a := h a (List.mem_cons_self a t)
      have ht : 0 ≤ t.sum := List.sum_nonneg (fun x hx => h x (List.mem_cons_of_mem a hx))
      have hsum : a + t.sum = 0 := by simpa using hs
      have ha0 : a = 0 := by omega
      have hts : t.sum = 0 := by omega
      intro x hx
      rcases List.mem_cons.mp hx with hxa | hxt
      · exact hxa.trans ha0
      · exact ih (fun y hy => h y (List.mem_cons_of_mem a hy)) hts x hxt

theorem sqDiff3_eq_zero_iff (c r : ℕ) :
    sqDiff3 c r = 0 ↔ pxR c = pxR r ∧ pxG c = pxG r ∧ pxB c = pxB r := by
  unfold sqDiff3
  constructor
  · intro h
    have h1 : ((pxR c : ℤ) - pxR r) * ((pxR c : ℤ) - pxR r) = 0 := by
      nlinarith [mul_self_nonneg ((pxR c : ℤ) - pxR r),
        mul_self_nonneg ((pxG c : ℤ) - pxG r), mul_self_nonneg ((pxB c : ℤ) - pxB r)]
    have h2 : ((pxG c : ℤ) - pxG r) * ((pxG c : ℤ) - pxG r) = 0 := by
      nlinarith [mul_self_nonneg ((pxR c : ℤ) - pxR r),
        mul_self_nonneg ((pxG c : ℤ) - pxG r), mul_self_nonneg ((pxB c : ℤ) - pxB r)]
    have h3 : ((pxB c : ℤ) - pxB r) * ((pxB c : ℤ) - pxB r) = 0 := by
      nlinarith [mul_self_nonneg ((pxR c : ℤ) - pxR r),
        mul_self_nonneg ((pxG c : ℤ) - pxG r), mul_self_nonneg ((pxB c : ℤ) - pxB r)]
    have e1 := mul_self_eq_zero.mp h1
    have e2 := mul_self_eq_zero.mp h2
    have e3 := mul_self_eq_zero.mp h3
    refine ⟨?_, ?_, ?_⟩ <;> omega
  · rintro ⟨h1, h2, h3⟩
    simp [h1, h2, h3]

theorem fitness_err_nonneg (cand ref : List ℕ) (count : ℕ) :
    0 ≤ fitness_err cand ref count := by
  rw [fitness_err_eq_sum]
  apply List.sum_nonneg
  intro x hx
  obtain ⟨i, _, rfl⟩ := List.mem_map.mp hx
  exact sqDiff3_nonneg _ _

theorem fitness_err_eq_zero_iff (cand ref : List ℕ) (count : ℕ) :
    fitness_err cand ref count = 0 ↔
      ∀ i < count, sqDiff3 (cand.getD i 0) (ref.getD i 0) = 0 := by
  rw [fitness_err_eq_sum]
  constructor
  · intro h i hi
    have hmem : sqDiff3 (cand.getD i 0) (ref.getD i 0) ∈
        (List.range count).map (fun i => sqDiff3 (cand.getD i 0) (ref.getD i 0)) :=
      List.mem_map.mpr ⟨i, List.mem_range.mpr hi, rfl⟩
    have hnn : ∀ x ∈ (List.range count).map
        (fun i => sqDiff3 (cand.getD i 0) (ref.getD i 0)), 0 ≤ x := by
      intro x hx
      obtain ⟨j, _, rfl⟩ := List.mem_map.mp hx
      exact sqDiff3_nonneg _ _
    exact sum_int_nonneg_eq_zero hnn h _ hmem
  · intro h
    apply List.sum_eq_zero
    intro x hx
    obtain ⟨i, hi, rfl⟩ := List.mem_map.mp hx
    exact h i (List.mem_range.mp hi)

theorem fitness_err_cons (c r : ℕ) (ct rt : List ℕ) (n : ℕ) :
    fitness_err (c :: ct) (r :: rt) (n + 1) = sqDiff3 c r + fitness_err ct rt n := by
  rw [fitness_err_eq_sum, fitness_err_eq_sum, List.range_succ_eq_map]
  simp only [List.map_cons, List.map_map, List.sum_cons]
  congr 1

theorem fitness_err_eq_zip_sum (cand ref : List ℕ) (N : ℕ)
    (hc : cand.length = N) (hr : ref.length = N) :
    fitness_err cand ref N = ((cand.zip ref).map (fun p => sqDiff3 p.1 p.2)).sum := by
  induction cand generalizing ref N with
  | nil =>
      subst hc
      simp [fitness_err]
  | cons c ct ih =>
      cases ref with
      | nil => simp at hc hr; omega
      | cons r rt =>
          cases N with
          | zero => simp at hc
          | succ n =>
              have hc' : ct.length = n := by simpa using hc
              have hr' : rt.length = n := by simpa using hr
              rw [fitness_err_cons, List.zip_cons_cons, List.map_cons, List.sum_cons,
                ih rt n hc' hr']

/-- **C3**: for equal-length ARGB8888 pixel sequences of length `N > 0`,
`fitness_scalar` returns exactly the per-pixel sum of squared R,G,B
differences divided by `N` (channels at bits 16..23, 8..15, 0..7); the
value is non-negative, and zero exactly when candidate and reference
agree channel-wise on R, G and B at every pixel. -/
theorem claim_C3_fitness_mse (cand ref : List ℕ) (N : ℕ)
    (hc : cand.length = N) (hr : ref.length = N) (hN : 0 < N) :
    fitness_scalar cand ref N =
      (((cand.zip ref).map (fun p => sqDiff3 p.1 p.2)).sum : ℚ) / (N : ℚ) ∧
    0 ≤ fitness_scalar cand ref N ∧
    (fitness_scalar cand ref N = 0 ↔
      ∀ i < N, pxR (cand.getD i 0) = pxR (ref.getD i 0) ∧
        pxG (cand.getD i 0) = pxG (ref.getD i 0) ∧
        pxB (cand.getD i 0) = pxB (ref.getD i 0)) := by
  have hNQ : (0 : ℚ) < (N : ℚ) := by exact_mod_cast hN
  refine ⟨?_, ?_, ?_⟩
  · rw [fitness_scalar, fitness_err_eq_zip_sum cand ref N hc hr]
  · apply div_nonneg _ (le_of_lt hNQ)
    exact_mod_cast fitness_err_nonneg cand ref N
  · rw [fitness_scalar, div_eq_zero_iff]
    constructor
    · intro h
      have herr : fitness_err cand ref N = 0 := by
        rcases h with h | h
        · exact_mod_cast h
        · exact absurd h (ne_of_gt hNQ)
      intro i hi
      have := (fitness_err_eq_zero_iff cand ref N).mp herr i hi
      exact (sqDiff3_eq_zero_iff _ _).mp this
    · intro h
      left
      have : fitness_err cand ref N = 0 := by
        apply (fitness_err_eq_zero_iff cand ref N).mpr
        intro i hi
        exact (sqDiff3_eq_zero_iff _ _).mpr (h i hi)
      exact_mod_cast this

/-- Witness for C3 at a concrete input: candidate `[0x00112233]`,
reference `[0x00112244]`, one pixel. -/
theorem claim_C3_fitness_mse_witness :
    fitness_scalar [0x00112233] [0x00112244] 1 =
      ((([0x00112233].zip [0x00112244]).map
        (fun p : ℕ × ℕ => sqDiff3 p.1 p.2)).sum : ℚ) / ((1 : ℕ) : ℚ) ∧
    0 ≤ fitness_scalar [0x00112233] [0x00112244] 1 ∧
    (fitness_scalar [0x00112233] [0x00112244] 1 = 0 ↔
      ∀ i < 1, pxR ([0x00112233].getD i 0) = pxR ([0x00112244].getD i 0) ∧
        pxG ([0x00112233].getD i 0) = pxG ([0x00112244].getD i 0) ∧
        pxB ([0x00112233].getD i 0) = pxB ([0x00112244].getD i 0)) :=
  claim_C3_fitness_mse [0x00112233] [0x00112244] 1 (by decide) (by decide) (by decide)

/-- **C4, counterexample**: called with pixel count 0, `fitness_scalar`
does not return a value `≥ 10^30`.  The source has no `count_px == 0`
branch: it computes `err / count_px` with `err = 0`, i.e. IEEE
`0.0 / 0.0 = NaN` (the exact-arithmetic model evaluates `0 / 0` to `0`);
on neither reading is the result a huge positive sentinel. -/
theorem claim_C4_counterexample :
    ¬ ((10 : ℚ) ^ 30 ≤ fitness_scalar [] [] 0) := by
  norm_num [fitness_scalar, fitness_err]

/-- **C4, amended**: with pixel count 0 the evaluator takes no special
path: the accumulated error is 0 and the function performs the division
by zero anyway (NaN in IEEE arithmetic, 0 in this exact model); it never
produces a large positive sentinel itself. -/
theorem claim_C4_no_sentinel_at_zero (cand ref : List ℕ) :
    fitness_err cand ref 0 = 0 ∧ fitness_scalar cand ref 0 = 0 := by
  constructor
  · rfl
  · simp [fitness_scalar]

/-! ## Alpha blending, from `alpha_blend` in `genetic_art.c` -/

/-- C truncation of a real value to an integer (`(Uint8)x` / `(int)x`):
rounding toward zero. -/
def truncQ (x : ℚ) : ℤ := if 0 ≤ x then ⌊x⌋ else ⌈x⌉

/-- One colour channel of `alpha_blend`:
`(Uint8)(sc * a + dc * (1.0f - a))` with `a = sa / 255.0f`. -/
def blendChannel (dc sc sa : ℕ) : ℕ :=
  (truncQ ((sc : ℚ) * ((sa : ℚ) / 255) + (dc : ℚ) * (1 - (sa : ℚ) / 255))).toNat

/-- `alpha_blend(dst, src, fmt)` for the ARGB8888 format: extract both
RGBA quadruples (`SDL_GetRGBA`), blend each colour channel, and compose
the result with alpha forced to 255 (`SDL_MapRGBA(fmt, rr, rg, rb, 255)`). -/
def alpha_blend (dst src : ℕ) : ℕ :=
  mkARGB 255 (blendChannel (pxR dst) (pxR src) (pxA src))
    (blendChannel (pxG dst) (pxG src) (pxA src))
    (blendChannel (pxB dst) (pxB src) (pxA src))

theorem blendChannel_eq_div (dc sc sa : ℕ) (hsa : sa ≤ 255) :
    blendChannel dc sc sa = (sc * sa + dc * (255 - sa)) / 255 := by
  have hv : (sc : ℚ) * ((sa : ℚ) / 255) + (dc : ℚ) * (1 - (sa : ℚ) / 255)
      = ((sc * sa + dc * (255 - sa) : ℕ) : ℚ) / ((255 : ℕ) : ℚ) := by
    push_cast [Nat.cast_sub hsa]
    field_simp
  have hnn : 0 ≤ (sc : ℚ) * ((sa : ℚ) / 255) + (dc : ℚ) * (1 - (sa : ℚ) / 255) := by
    rw [hv]
    positivity
  unfold blendChannel truncQ
  rw [if_pos hnn, hv, Int.floor_toNat, Nat.floor_div_eq_div]

theorem alpha_blend_mkARGB_eq (da dr dg db sa sr sg sb : ℕ)
    (hdr : dr < 256) (hdg : dg < 256) (hdb : db < 256) (hsa : sa < 256)
    (hsr : sr < 256) (hsg : sg < 256) (hsb : sb < 256) :
    alpha_blend (mkARGB da dr dg db) (mkARGB sa sr sg sb) =
      mkARGB 255 ((sr * sa + dr * (255 - sa)) / 255)
        ((sg * sa + dg * (255 - sa)) / 255)
        ((sb * sa + db * (255 - sa)) / 255) := by
  unfold alpha_blend
  rw [pxR_mkARGB, pxG_mkARGB, pxB_mkARGB, pxA_mkARGB,
    pxR_mkARGB, pxG_mkARGB, pxB_mkARGB]
  rw [Nat.mod_eq_of_lt hdr, Nat.mod_eq_of_lt hdg, Nat.mod_eq_of_lt hdb,
    Nat.mod_eq_of_lt hsa, Nat.mod_eq_of_lt hsr, Nat.mod_eq_of_lt hsg,
    Nat.mod_eq_of_lt hsb]
  rw [blendChannel_eq_div dr sr sa (by omega), blendChannel_eq_div dg sg sa (by omega),
    blendChannel_eq_div db sb sa (by omega)]

/-- **C5, counterexample**: blending source `(100,100,100,128)` over
destination `(200,200,200,255)` does not give the claimed rounded
channels.  The exact channel value is `38200/255 ≈ 149.8`, which the
claim rounds to 150, while the C code's `(Uint8)` cast truncates to 149. -/
theorem claim_C5_counterexample :
    alpha_blend (mkARGB 255 200 200 200) (mkARGB 128 100 100 100) ≠
      mkARGB 255
        (round ((100 : ℚ) * ((128 : ℚ) / 255) + (200 : ℚ) * (1 - (128 : ℚ) / 255))).toNat
        (round ((100 : ℚ) * ((128 : ℚ) / 255) + (200 : ℚ) * (1 - (128 : ℚ) / 255))).toNat
        (round ((100 : ℚ) * ((128 : ℚ) / 255) + (200 : ℚ) * (1 - (128 : ℚ) / 255))).toNat := by
  have hround : (round ((100 : ℚ) * ((128 : ℚ) / 255) +
      (200 : ℚ) * (1 - (128 : ℚ) / 255))).toNat = 150 := by
    have hx : (100 : ℚ) * ((128 : ℚ) / 255) + (200 : ℚ) * (1 - (128 : ℚ) / 255)
        = 38200 / 255 := by norm_num
    have hfl : ⌊(38200 : ℚ) / 255 + 1 / 2⌋ = 150 := by
      rw [Int.floor_eq_iff]
      constructor <;> norm_num
    rw [hx, round_eq, hfl]
    rfl
  rw [hround]
  have hlhs := alpha_blend_mkARGB_eq 255 200 200 200 128 100 100 100
    (by omega) (by omega) (by omega) (by omega) (by omega) (by omega) (by omega)
  rw [hlhs]
  norm_num [mkARGB]

/-- **C5, amended**: for every destination pixel `(dR,dG,dB,dA)` and
source pixel `(sR,sG,sB,sA)`, `alpha_blend` returns each colour channel
equal to the *truncation* `⌊(sC·sA + dC·(255−sA)) / 255⌋` (that is,
`sC·a + dC·(1−a)` with `a = sA/255` truncated toward zero, not rounded),
and the alpha channel of the result is always 255. -/
theorem claim_C5_blend_truncates (da dr dg db sa sr sg sb : ℕ)
    (hdr : dr < 256) (hdg : dg < 256) (hdb : db < 256) (hsa : sa < 256)
    (hsr : sr < 256) (hsg : sg < 256) (hsb : sb < 256) :
    alpha_blend (mkARGB da dr dg db) (mkARGB sa sr sg sb) =
      mkARGB 255 ((sr * sa + dr * (255 - sa)) / 255)
        ((sg * sa + dg * (255 - sa)) / 255)
        ((sb * sa + db * (255 - sa)) / 255) :=
  alpha_blend_mkARGB_eq da dr dg db sa sr sg sb hdr hdg hdb hsa hsr hsg hsb

/-- Witness for the amended C5 at the counterexample input. -/
theorem claim_C5_blend_truncates_witness :
    alpha_blend (mkARGB 255 200 200 200) (mkARGB 128 100 100 100) =
      mkARGB 255 ((100 * 128 + 200 * (255 - 128)) / 255)
        ((100 * 128 + 200 * (255 - 128)) / 255)
        ((100 * 128 + 200 * (255 - 128)) / 255) :=
  claim_C5_blend_truncates 255 200 200 200 128 100 100 100 (by decide) (by decide)
    (by decide) (by decide) (by decide) (by decide) (by decide)

/-! ## Genes and chromosomes, from `genetic_structs.h` / `genetic_structs.c` -/

/-- The geometry union of a `Gene` together with its `ShapeType` tag:
`SHAPE_CIRCLE` carries `(cx, cy, radius)`, `SHAPE_TRIANGLE` carries the
three vertices. -/
inductive ShapeGeom where
  | circle (cx cy radius : ℤ)
  | triangle (x1 y1 x2 y2 x3 y3 : ℤ)
  deriving DecidableEq, Repr

/-- A `Gene`: one drawable primitive (tag + geometry union) with an RGBA
colour, each channel an 8-bit unsigned integer. -/
structure Gene where
  geom : ShapeGeom
  r : ℕ
  g : ℕ
  b : ℕ
  a : ℕ
  deriving DecidableEq, Repr

/-- A `Chromosome`: the gene array `shapes`, the gene count `n_shapes`
and the cached `fitness` (a C `double`, modelled over `ℚ`). -/
structure Chromosome where
  shapes : List Gene
  n_shapes : ℕ
  fitness : ℚ
  deriving DecidableEq, Repr

instance : Inhabited Chromosome := ⟨⟨[], 0, 0⟩⟩

/-- `crossover(a, b, o)` from `genetic_art.c`:
`cut = o->n_shapes / 2`, then `memcpy(o->shapes, a->shapes, cut)` and
`memcpy(o->shapes + cut, b->shapes + cut, o->n_shapes - cut)`.  The model
writes exactly the positions `[0, cut)` from `a` and `[cut, n_shapes)`
from `b`, leaving any slack beyond `n_shapes` untouched. -/
def crossover (a b o : Chromosome) : Chromosome :=
  let cut := o.n_shapes / 2
  { o with shapes :=
      a.shapes.take cut ++ ((b.shapes.drop cut).take (o.n_shapes - cut)) ++
        o.shapes.drop o.n_shapes }

/-- Value-level core of `copy_chromosome` (both pointers non-null):
if `dst->n_shapes != src->n_shapes` return `dst` unchanged, else
`memcpy(dst->shapes, src->shapes, src->n_shapes * sizeof(Gene))`. -/
def copyChrom (dst src : Chromosome) : Chromosome :=
  if dst.n_shapes ≠ src.n_shapes then dst
  else { dst with shapes := src.shapes.take src.n_shapes ++ dst.shapes.drop src.n_shapes }

/-- `copy_chromosome(dst, src)` from `genetic_structs.c`, with C null
pointers modelled by `Option`: `if (!dst || !src) return;` then the
value-level copy.  The result is the final state of `dst`. -/
def copy_chromosome (dst src : Option Chromosome) : Option Chromosome :=
  match dst, src with
  | none, _ => none
  | some d, none => some d
  | some d, some s => some (copyChrom d s)

/-- **C1**: for parents `a`, `b` and output `o` sharing `n` genes,
`crossover(a,b,o)` puts `a`'s genes at indices `[0, n/2)` and `b`'s genes
at indices `[n/2, n)` of `o`. -/
theorem claim_C1_crossover (a b o : Chromosome) (n : ℕ)
    (han : a.n_shapes = n) (hbn : b.n_shapes = n) (hon : o.n_shapes = n)
    (hal : a.shapes.length = n) (hbl : b.shapes.length = n)
    (hol : o.shapes.length = n) :
    (∀ i, i < n / 2 → (crossover a b o).shapes.get? i = a.shapes.get? i) ∧
    (∀ i, n / 2 ≤ i → i < n → (crossover a b o).shapes.get? i = b.shapes.get? i) := by
  have hcut : o.n_shapes / 2 = n / 2 := by rw [hon]
  have hhalf : n / 2 ≤ n := Nat.div_le_self n 2
  constructor
  · intro i hi
    unfold crossover
    simp only [hcut, hon]
    rw [List.get?_append, List.get?_append]
    · exact List.get?_take hi
    · rw [List.length_take]
      omega
    · rw [List.length_append, List.length_take, List.length_take,
        List.length_drop, hal, hbl]
      omega
  · intro i hge hlt
    unfold crossover
    simp only [hcut, hon]
    have hlen1 : (a.shapes.take (n / 2)).length = n / 2 := by
      rw [List.length_take, hal]
      omega
    have hlen2 : ((b.shapes.drop (n / 2)).take (n - n / 2)).length = n - n / 2 := by
      rw [List.length_take, List.length_drop, hbl]
      omega
    rw [List.get?_append (by rw [List.length_append, hlen1, hlen2]; omega)]
    rw [List.get?_append_right (by rw [hlen1]; omega)]
    rw [hlen1, List.get?_take (by omega), List.get?_drop]
    congr 1
    omega

/-- Witness for C1 at two concrete 2-gene parents. -/
theorem claim_C1_crossover_witness :
    (∀ i, i < 2 / 2 →
      (crossover ⟨[⟨.circle 1 1 1, 0, 0, 0, 0⟩, ⟨.circle 2 2 2, 0, 0, 0, 0⟩], 2, 0⟩
        ⟨[⟨.circle 3 3 3, 0, 0, 0, 0⟩, ⟨.circle 4 4 4, 0, 0, 0, 0⟩], 2, 0⟩
        ⟨[⟨.circle 5 5 5, 0, 0, 0, 0⟩, ⟨.circle 6 6 6, 0, 0, 0, 0⟩], 2, 0⟩).shapes.get? i =
        [⟨.circle 1 1 1, 0, 0, 0, 0⟩, (⟨.circle 2 2 2, 0, 0, 0, 0⟩ : Gene)].get? i) ∧
    (∀ i, 2 / 2 ≤ i → i < 2 →
      (crossover ⟨[⟨.circle 1 1 1, 0, 0, 0, 0⟩, ⟨.circle 2 2 2, 0, 0, 0, 0⟩], 2, 0⟩
        ⟨[⟨.circle 3 3 3, 0, 0, 0, 0⟩, ⟨.circle 4 4 4, 0, 0, 0, 0⟩], 2, 0⟩
        ⟨[⟨.circle 5 5 5, 0, 0, 0, 0⟩, ⟨.circle 6 6 6, 0, 0, 0, 0⟩], 2, 0⟩).shapes.get? i =
        [⟨.circle 3 3 3, 0, 0, 0, 0⟩, (⟨.circle 4 4 4, 0, 0, 0, 0⟩ : Gene)].get? i) :=
  claim_C1_crossover
    ⟨[⟨.circle 1 1 1, 0, 0, 0, 0⟩, ⟨.circle 2 2 2, 0, 0, 0, 0⟩], 2, 0⟩
    ⟨[⟨.circle 3 3 3, 0, 0, 0, 0⟩, ⟨.circle 4 4 4, 0, 0, 0, 0⟩], 2, 0⟩
    ⟨[⟨.circle 5 5 5, 0, 0, 0, 0⟩, ⟨.circle 6 6 6, 0, 0, 0, 0⟩], 2, 0⟩
    2 (by decide) (by decide) (by decide) (by decide) (by decide) (by decide)

/-- **C10**: `copy_chromosome(dst, src)` leaves `dst` unchanged whenever
`dst` is null, `src` is null, or the `n_shapes` differ; a successful copy
overwrites only the gene array, never `dst->n_shapes` or `dst->fitness`. -/
theorem claim_C10_copy_chromosome (dst src : Option Chromosome) :
    (dst = none ∨ src = none → copy_chromosome dst src = dst) ∧
    (∀ d s, dst = some d → src = some s → d.n_shapes ≠ s.n_shapes →
      copy_chromosome dst src = dst) ∧
    (∀ d s, (copyChrom d s).n_shapes = d.n_shapes ∧
      (copyChrom d s).fitness = d.fitness) := by
  refine ⟨?_, ?_, ?_⟩
  · rintro (rfl | rfl)
    · rfl
    · cases dst <;> rfl
  · rintro d s rfl rfl hne
    simp [copy_chromosome, copyChrom, hne]
  · intro d s
    unfold copyChrom
    by_cases h : d.n_shapes ≠ s.n_shapes <;> simp [h]

/-- Witness for C10 at concrete chromosomes: a null source, a shape-count
mismatch, and a successful copy. -/
theorem claim_C10_copy_chromosome_witness :
    copy_chromosome (some ⟨[⟨.circle 1 1 1, 0, 0, 0, 0⟩], 1, 7⟩) none =
      some ⟨[⟨.circle 1 1 1, 0, 0, 0, 0⟩], 1, 7⟩ ∧
    copy_chromosome (some ⟨[⟨.circle 1 1 1, 0, 0, 0, 0⟩], 1, 7⟩)
      (some ⟨[], 0, 3⟩) = some ⟨[⟨.circle 1 1 1, 0, 0, 0, 0⟩], 1, 7⟩ ∧
    (copyChrom ⟨[⟨.circle 1 1 1, 0, 0, 0, 0⟩], 1, 7⟩
      ⟨[⟨.circle 2 2 2, 0, 0, 0, 0⟩], 1, 3⟩).n_shapes = 1 ∧
    (copyChrom ⟨[⟨.circle 1 1 1, 0, 0, 0, 0⟩], 1, 7⟩
      ⟨[⟨.circle 2 2 2, 0, 0, 0, 0⟩], 1, 3⟩).fitness = 7 := by
  refine ⟨?_, ?_, ?_, ?_⟩
  · exact (claim_C10_copy_chromosome
      (some ⟨[⟨.circle 1 1 1, 0, 0, 0, 0⟩], 1, 7⟩) none).1 (Or.inr rfl)
  · exact (claim_C10_copy_chromosome
      (some ⟨[⟨.circle 1 1 1, 0, 0, 0, 0⟩], 1, 7⟩) (some ⟨[], 0, 3⟩)).2.1
      ⟨[⟨.circle 1 1 1, 0, 0, 0, 0⟩], 1, 7⟩ ⟨[], 0, 3⟩ rfl rfl (by decide)
  · exact ((claim_C10_copy_chromosome (some ⟨[⟨.circle 1 1 1, 0, 0, 0, 0⟩], 1, 7⟩)
      (some ⟨[⟨.circle 2 2 2, 0, 0, 0, 0⟩], 1, 3⟩)).2.2 _ _).1
  · exact ((claim_C10_copy_chromosome (some ⟨[⟨.circle 1 1 1, 0, 0, 0, 0⟩], 1, 7⟩)
      (some ⟨[⟨.circle 2 2 2, 0, 0, 0, 0⟩], 1, 3⟩)).2.2 _ _).2

/-! ## Rasteriser, from `draw_circle`, `draw_triangle`, `render_chrom` -/

/-- `IMAGE_W` from `genetic_art.h`. -/
def IMAGE_W : ℤ := 640

/-- `IMAGE_H` from `genetic_art.h`. -/
def IMAGE_H : ℤ := 480

/-- The inclusive integer range `[a, b]` traversed by a C
`for (i = a; i <= b; ++i)` loop. -/
def intRange (a b : ℤ) : List ℤ :=
  (List.range (b + 1 - a).toNat).map (fun (k : ℕ) => a + (k : ℤ))

/-- `clampi(v, lo, hi)` from `genetic_art.c`. -/
def clampi (v lo hi : ℤ) : ℤ := if v < lo then lo else if hi < v then hi else v

/-- `edge(y, xa, ya, xb, yb)` from `genetic_art.c`: the interpolated X on
the edge `(xa,ya)-(xb,yb)` at scanline `y`; a horizontal edge returns
`xa`. -/
def edge (y xa ya xb yb : ℤ) : ℚ :=
  if yb = ya then (xa : ℚ)
  else (xa : ℚ) + ((xb : ℚ) - (xa : ℚ)) * (((y : ℚ) - (ya : ℚ)) / ((yb : ℚ) - (ya : ℚ)))

/-- One rasteriser write: `px[idx] = alpha_blend(px[idx], col)`. -/
def blendAt (px : List ℕ) (idx : ℤ) (col : ℕ) : List ℕ :=
  px.set idx.toNat (alpha_blend (px.getD idx.toNat 0) col)

/-- `draw_circle(px, pitch, fmt, cx, cy, r, col)`: for each scanline
`dy ∈ [-r, r]` inside the canvas, blend `col` over the horizontal span
`dx ∈ [-⌊√(r²-dy²)⌋, ⌊√(r²-dy²)⌋]` clipped to the canvas. -/
def draw_circle (px : List ℕ) (pitch cx cy r : ℤ) (col : ℕ) : List ℕ :=
  if r ≤ 0 then px
  else
    (intRange (-r) r).foldl (fun buf dy =>
      let y := cy + dy
      if y < 0 ∨ IMAGE_H ≤ y then buf
      else
        let dxMax : ℤ := (Nat.sqrt (r * r - dy * dy).toNat : ℤ)
        (intRange (-dxMax) dxMax).foldl (fun buf2 dx =>
          let x := cx + dx
          if x < 0 ∨ IMAGE_W ≤ x then buf2
          else blendAt buf2 (y * (pitch / 4) + x) col) buf) px

/-- The three conditional swaps at the start of `draw_triangle`, sorting
the vertices by ascending `y`. -/
def sortTriVerts (x1 y1 x2 y2 x3 y3 : ℤ) : ℤ × ℤ × ℤ × ℤ × ℤ × ℤ :=
  match (if y1 > y2 then (x2, y2, x1, y1, x3, y3) else (x1, y1, x2, y2, x3, y3)) with
  | (a1, b1, a2, b2, a3, b3) =>
    match (if b1 > b3 then (a3, b3, a2, b2, a1, b1) else (a1, b1, a2, b2, a3, b3)) with
    | (c1, d1, c2, d2, c3, d3) =>
      if d2 > d3 then (c1, d1, c3, d3, c2, d2) else (c1, d1, c2, d2, c3, d3)

/-- `draw_triangle(px, pitch, fmt, x1, y1, x2, y2, x3, y3, col)`:
scanline fill between the interpolated edge intercepts, each intercept
truncated to `int` and clamped to `[0, IMAGE_W-1]`. -/
def draw_triangle (px : List ℕ) (pitch x1 y1 x2 y2 x3 y3 : ℤ) (col : ℕ) : List ℕ :=
  match sortTriVerts x1 y1 x2 y2 x3 y3 with
  | (sx1, sy1, sx2, sy2, sx3, sy3) =>
    (intRange sy1 sy3).foldl (fun buf y =>
      if y < 0 ∨ IMAGE_H ≤ y then buf
      else
        let xa := if y < sy2 then edge y sx1 sy1 sx2 sy2 else edge y sx2 sy2 sx3 sy3
        let xb := edge y sx1 sy1 sx3 sy3
        let xlo := if xb < xa then xb else xa
        let xhi := if xb < xa then xa else xb
        let ixa := clampi (truncQ xlo) 0 (IMAGE_W - 1)
        let ixb := clampi (truncQ xhi) 0 (IMAGE_W - 1)
        (intRange ixa ixb).foldl (fun buf2 x =>
          blendAt buf2 (y * (pitch / 4) + x) col) buf) px

/-- Draw one gene: `SDL_MapRGBA(fmt, g->r, g->g, g->b, g->a)` then the
shape dispatch of the `render_chrom` loop body. -/
def renderGene (px : List ℕ) (pitch : ℤ) (g : Gene) : List ℕ :=
  match g.geom with
  | .circle cx cy rad => draw_circle px pitch cx cy rad (mkARGB g.a g.r g.g g.b)
  | .triangle ax ay bx bb cx cy =>
      draw_triangle px pitch ax ay bx bb cx cy (mkARGB g.a g.r g.g g.b)

/-- `render_chrom(c, out, pitch, fmt)`: clear `IMAGE_H * pitch` bytes to
zero, then draw the `n_shapes` genes in order. -/
def render_chrom (c : Chromosome) (pitch : ℤ) : List ℕ :=
  (c.shapes.take c.n_shapes).foldl (fun buf g => renderGene buf pitch g)
    (List.replicate (IMAGE_H * (pitch / 4)).toNat 0)

/-! ### The all-transparent chromosome renders black (C6) -/

/-- R, G and B channels of a pixel word are all zero. -/
def rgbZero (p : ℕ) : Prop := pxR p = 0 ∧ pxG p = 0 ∧ pxB p = 0

theorem pxR_lt (p : ℕ) : pxR p < 256 := Nat.mod_lt _ (by norm_num)

theorem pxG_lt (p : ℕ) : pxG p < 256 := Nat.mod_lt _ (by norm_num)

theorem pxB_lt (p : ℕ) : pxB p < 256 := Nat.mod_lt _ (by norm_num)

theorem rgbZero_zero : rgbZero 0 := by
  refine ⟨?_, ?_, ?_⟩ <;> rfl

theorem blendChannel_alpha_zero (dc sc : ℕ) : blendChannel dc sc 0 = dc := by
  rw [blendChannel_eq_div dc sc 0 (by norm_num)]
  simp

/-- Blending a fully transparent colour preserves the destination's
R, G and B channels exactly (only the alpha is forced to 255). -/
theorem alpha_blend_transparent (d col : ℕ) (h : pxA col = 0) :
    pxR (alpha_blend d col) = pxR d ∧ pxG (alpha_blend d col) = pxG d ∧
      pxB (alpha_blend d col) = pxB d := by
  unfold alpha_blend
  rw [h, blendChannel_alpha_zero, blendChannel_alpha_zero, blendChannel_alpha_zero,
    pxR_mkARGB, pxG_mkARGB, pxB_mkARGB]
  exact ⟨Nat.mod_eq_of_lt (pxR_lt d), Nat.mod_eq_of_lt (pxG_lt d),
    Nat.mod_eq_of_lt (pxB_lt d)⟩

/-- Every pixel of the buffer (and the out-of-range default) has zero
R, G and B. -/
def bufRGBZero (l : List ℕ) : Prop := ∀ i : ℕ, rgbZero (l.getD i 0)

theorem foldl_preserve {α β : Type} (P : α → Prop) (f : α → β → α)
    (hf : ∀ a b, P a → P (f a b)) :
    ∀ (l : List β) (a : α), P a → P (l.foldl f a) := by
  intro l
  induction l with
  | nil => intro a ha; exact ha
  | cons x t ih => intro a ha; exact ih _ (hf a x ha)

theorem bufRGBZero_set (l : List ℕ) (n : ℕ) (v : ℕ) (hv : rgbZero v)
    (hl : bufRGBZero l) : bufRGBZero (l.set n v) := by
  intro i
  rw [List.getD_eq_getElem?_getD, List.getElem?_set]
  by_cases h : n = i
  · subst h
    by_cases hlen : n < l.length
    · simpa [hlen] using hv
    · have := hl n
      rw [List.getD_eq_getElem?_getD] at this
      simpa [hlen] using rgbZero_zero
  · have := hl i
    rw [List.getD_eq_getElem?_getD] at this
    simpa [h] using this

theorem bufRGBZero_blendAt (l : List ℕ) (idx : ℤ) (col : ℕ) (hcol : pxA col = 0)
    (hl : bufRGBZero l) : bufRGBZero (blendAt l idx col) := by
  unfold blendAt
  apply bufRGBZero_set _ _ _ _ hl
  obtain ⟨h1, h2, h3⟩ := alpha_blend_transparent (l.getD idx.toNat 0) col hcol
  obtain ⟨g1, g2, g3⟩ := hl idx.toNat
  exact ⟨h1.trans g1, h2.trans g2, h3.trans g3⟩

theorem bufRGBZero_draw_circle (px : List ℕ) (pitch cx cy r : ℤ) (col : ℕ)
    (hcol : pxA col = 0) (hpx : bufRGBZero px) :
    bufRGBZero (draw_circle px pitch cx cy r col) := by
  unfold draw_circle
  by_cases hr : r ≤ 0
  · simpa [hr] using hpx
  · simp only [hr, if_false]
    apply foldl_preserve bufRGBZero _ _ _ _ hpx
    intro a dy ha
    by_cases hy : cy + dy < 0 ∨ IMAGE_H ≤ cy + dy
    · simpa [hy] using ha
    · simp only [hy, if_false]
      apply foldl_preserve bufRGBZero _ _ _ _ ha
      intro a2 dx ha2
      by_cases hx : cx + dx < 0 ∨ IMAGE_W ≤ cx + dx
      · simpa [hx] using ha2
      · simp only [hx, if_false]
        exact bufRGBZero_blendAt _ _ _ hcol ha2

theorem bufRGBZero_draw_triangle (px : List ℕ) (pitch x1 y1 x2 y2 x3 y3 : ℤ)
    (col : ℕ) (hcol : pxA col = 0) (hpx : bufRGBZero px) :
    bufRGBZero (draw_triangle px pitch x1 y1 x2 y2 x3 y3 col) := by
  unfold draw_triangle
  match sortTriVerts x1 y1 x2 y2 x3 y3 with
  | (sx1, sy1, sx2, sy2, sx3, sy3) =>
    apply foldl_preserve bufRGBZero _ _ _ _ hpx
    intro a y ha
    by_cases hy : y < 0 ∨ IMAGE_H ≤ y
    · simpa [hy] using ha
    · simp only [hy, if_false]
      apply foldl_preserve bufRGBZero _ _ _ _ ha
      intro a2 x ha2
      exact bufRGBZero_blendAt _ _ _ hcol ha2

theorem bufRGBZero_renderGene (px : List ℕ) (pitch : ℤ) (g : Gene)
    (hg : g.a = 0) (hpx : bufRGBZero px) : bufRGBZero (renderGene px pitch g) := by
  have hcol : pxA (mkARGB g.a g.r g.g g.b) = 0 := by
    rw [pxA_mkARGB, hg]
  unfold renderGene
  match g.geom with
  | .circle cx cy rad => exact bufRGBZero_draw_circle _ _ _ _ _ _ hcol hpx
  | .triangle ax ay bx bb cx cy =>
      exact bufRGBZero_draw_triangle _ _ _ _ _ _ _ _ _ hcol hpx

theorem bufRGBZero_replicate (n : ℕ) : bufRGBZero (List.replicate n 0) := by
  intro i
  rw [List.getD_eq_getElem?_getD]
  by_cases h : i < n
  · simp [List.getElem?_replicate, h]
    exact rgbZero_zero
  · rw [List.getElem?_eq_none (by simpa using h)]
    exact rgbZero_zero

theorem foldl_preserve_mem {α β : Type} (P : α → Prop) (Q : β → Prop)
    (f : α → β → α) (hf : ∀ a b, Q b → P a → P (f a b)) :
    ∀ (l : List β), (∀ b ∈ l, Q b) → ∀ a, P a → P (l.foldl f a) := by
  intro l
  induction l with
  | nil => intro _ a ha; exact ha
  | cons x t ih =>
      intro hq a ha
      exact ih (fun b hb => hq b (List.mem_cons_of_mem x hb)) _
        (hf a x (hq x (List.mem_cons_self x t)) ha)

/-- If every gene of the chromosome is fully transparent, the rendered
buffer has zero R, G and B everywhere. -/
theorem render_chrom_transparent (c : Chromosome) (pitch : ℤ)
    (hc : ∀ g ∈ c.shapes, g.a = 0) : bufRGBZero (render_chrom c pitch) := by
  unfold render_chrom
  apply foldl_preserve_mem bufRGBZero (fun g : Gene => g.a = 0)
  · intro a g hg ha
    exact bufRGBZero_renderGene _ _ _ hg ha
  · intro g hg
    exact hc g (List.mem_of_mem_take hg)
  · exact bufRGBZero_replicate _

/-- Fitness of an all-black buffer against an all-white reference:
every pixel contributes `3 · 255² = 195075`, so the mean is `195075`. -/
theorem fitness_all_black_vs_white (cand ref : List ℕ) (N : ℕ)
    (hcand : bufRGBZero cand)
    (href : ∀ i < N, pxR (ref.getD i 0) = 255 ∧ pxG (ref.getD i 0) = 255 ∧
      pxB (ref.getD i 0) = 255)
    (hN : 0 < N) : fitness_scalar cand ref N = 195075 := by
  have herr : fitness_err cand ref N = (N : ℤ) * 195075 := by
    rw [fitness_err_eq_sum]
    have hstep : ∀ i ∈ List.range N,
        sqDiff3 (cand.getD i 0) (ref.getD i 0) = 195075 := by
      intro i hi
      obtain ⟨r1, g1, b1⟩ := hcand i
      obtain ⟨r2, g2, b2⟩ := href i (List.mem_range.mp hi)
      unfold sqDiff3
      rw [r1, g1, b1, r2, g2, b2]
      norm_num
    rw [List.map_congr_left hstep]
    simp [List.sum_replicate, List.map_const']
  unfold fitness_scalar
  rw [herr]
  have hne : ((N : ℚ)) ≠ 0 := by
    have : (0 : ℚ) < (N : ℚ) := by exact_mod_cast hN
    exact ne_of_gt this
  push_cast
  field_simp

/-- **C6**: a chromosome made of one fully transparent shape (alpha 0)
of any geometry renders to an all-black image (R = G = B = 0 at every
pixel), and its fitness against an all-white reference of any positive
pixel count is exactly 195075. -/
theorem claim_C6_transparent_shape (geom : ShapeGeom) (r g b : ℕ) (c : Chromosome)
    (hc : c.shapes = [⟨geom, r, g, b, 0⟩]) (hn : c.n_shapes = 1)
    (N : ℕ) (hN : 0 < N) (ref : List ℕ)
    (href : ∀ i < N, pxR (ref.getD i 0) = 255 ∧ pxG (ref.getD i 0) = 255 ∧
      pxB (ref.getD i 0) = 255) :
    (∀ i : ℕ, rgbZero ((render_chrom c (IMAGE_W * 4)).getD i 0)) ∧
    fitness_scalar (render_chrom c (IMAGE_W * 4)) ref N = 195075 := by
  have hall : ∀ gg ∈ c.shapes, gg.a = 0 := by
    rw [hc]
    intro gg hgg
    rw [List.mem_singleton.mp hgg]
  have hrend := render_chrom_transparent c (IMAGE_W * 4) hall
  exact ⟨hrend, fitness_all_black_vs_white _ _ _ hrend href hN⟩

/-- Witness for C6: a transparent circle against a single white pixel. -/
theorem claim_C6_transparent_shape_witness :
    (∀ i : ℕ, rgbZero ((render_chrom ⟨[⟨.circle 10 10 5, 1, 2, 3, 0⟩], 1, 0⟩
      (IMAGE_W * 4)).getD i 0)) ∧
    fitness_scalar (render_chrom ⟨[⟨.circle 10 10 5, 1, 2, 3, 0⟩], 1, 0⟩
      (IMAGE_W * 4)) [mkARGB 0 255 255 255] 1 = 195075 :=
  claim_C6_transparent_shape (.circle 10 10 5) 1 2 3
    ⟨[⟨.circle 10 10 5, 1, 2, 3, 0⟩], 1, 0⟩ rfl rfl 1 (by decide)
    [mkARGB 0 255 255 255] (by decide)

/-! ## Island model, from `genetic_art.h` and `genetic_art.c` -/

/-- `ISLAND_COUNT` from `genetic_art.h`. -/
def ISLAND_COUNT : ℕ := 4

/-- `MIGRATION_INTERVAL` from `genetic_art.h`. -/
def MIGRATION_INTERVAL : ℕ := 5

/-- `IslandRange`: one island's population slice `[start, fin]`
(inclusive; the C field `end` is a Lean keyword). -/
structure IslandRange where
  start : ℤ
  fin : ℤ
  deriving DecidableEq, Repr

instance : Inhabited IslandRange := ⟨⟨0, 0⟩⟩

/-- The island partition built at the top of `ga_thread_func`:
`ISL_SIZE = population_size / ISLAND_COUNT`, `isl[i].start = i*ISL_SIZE`,
`isl[i].end = (i == ISLAND_COUNT-1) ? population_size-1 : (i+1)*ISL_SIZE-1`. -/
def islandPartition (populationSize : ℤ) : List IslandRange :=
  (List.range ISLAND_COUNT).map (fun i =>
    { start := (i : ℤ) * (populationSize / 4),
      fin := if i = ISLAND_COUNT - 1 then populationSize - 1
             else ((i : ℤ) + 1) * (populationSize / 4) - 1 })

/-- Dereference `pop[i]` for a C `int` index. -/
def popGet (pop : List Chromosome) (i : ℤ) : Chromosome := pop.getD i.toNat default

/-- Write `pop[i]` in place. -/
def popSet (pop : List Chromosome) (i : ℤ) (c : Chromosome) : List Chromosome :=
  pop.set i.toNat c

/-- Index form of `find_best(pop, start, end)`: the earliest index of
strictly minimal fitness in `[start, end]`, scanned left to right with
`if (pop[i]->fitness < best->fitness) best = pop[i];`. -/
def findBestIdx (pop : List Chromosome) (start fin : ℤ) : ℤ :=
  (intRange (start + 1) fin).foldl (fun b i =>
    if (popGet pop i).fitness < (popGet pop b).fitness then i else b) start

/-- `find_best` returns a `Chromosome*`; in the model it is the
chromosome at `findBestIdx`. -/
def find_best (pop : List Chromosome) (start fin : ℤ) : Chromosome :=
  popGet pop (findBestIdx pop start fin)

/-- `find_worst_index(pop, start, end)`: the earliest index of strictly
maximal fitness (`if (pop[i]->fitness > pop[worst]->fitness) worst = i;`). -/
def find_worst_index (pop : List Chromosome) (start fin : ℤ) : ℤ :=
  (intRange (start + 1) fin).foldl (fun w i =>
    if (popGet pop w).fitness < (popGet pop i).fitness then i else w) start

/-- One iteration of the destination loop of `migrate`:
`src = (dest - 1 + ISLAND_COUNT) % ISLAND_COUNT`,
`widx = find_worst_index(pop, isl[dest])`, then
`copy_chromosome(pop[widx], migrants[src]); pop[widx]->fitness = migrants[src]->fitness;`.
`migrants` holds the *pointers* gathered before the loop, modelled as the
indices of each island's pre-loop best: the source chromosome is read
from the current population at that index, exactly as the pointer
dereference does. -/
def migrateStep (isl : List IslandRange) (migrants : List ℤ)
    (p : List Chromosome) (dest : ℕ) : List Chromosome :=
  let src : ℤ := ((dest : ℤ) - 1 + (isl.length : ℤ)) % (isl.length : ℤ)
  let rng := isl.getD dest default
  let widx := find_worst_index p rng.start rng.fin
  let m := popGet p (migrants.getD src.toNat 0)
  popSet p widx { copyChrom (popGet p widx) m with fitness := m.fitness }

/-- `migrate(isl, pop)` from `genetic_art.c`: gather each island's best
(pointers, i.e. indices), then run the destination ring loop. -/
def migrate (isl : List IslandRange) (pop : List Chromosome) : List Chromosome :=
  let migrants : List ℤ := isl.map (fun r => findBestIdx pop r.start r.fin)
  (List.range isl.length).foldl (migrateStep isl migrants) pop

theorem mem_intRange {a b x : ℤ} : x ∈ intRange a b ↔ a ≤ x ∧ x ≤ b := by
  unfold intRange
  simp only [List.mem_map, List.mem_range]
  constructor
  · rintro ⟨k, hk, rfl⟩
    omega
  · rintro ⟨h1, h2⟩
    exact ⟨(x - a).toNat, by omega, by omega⟩

theorem foldl_sel_mem (step : ℤ → ℤ → ℤ) (hstep : ∀ b i, step b i = b ∨ step b i = i) :
    ∀ (l : List ℤ) (b : ℤ), l.foldl step b = b ∨ l.foldl step b ∈ l := by
  intro l
  induction l with
  | nil => intro b; left; rfl
  | cons x t ih =>
      intro b
      rw [List.foldl_cons]
      rcases hstep b x with h | h
      · rw [h]
        rcases ih b with h2 | h2
        · left; exact h2
        · right; exact List.mem_cons_of_mem x h2
      · rw [h]
        rcases ih x with h2 | h2
        · right; rw [h2]; exact List.mem_cons_self x t
        · right; exact List.mem_cons_of_mem x h2

theorem findBestIdx_bounds (pop : List Chromosome) (start fin : ℤ) (h : start ≤ fin) :
    start ≤ findBestIdx pop start fin ∧ findBestIdx pop start fin ≤ fin := by
  unfold findBestIdx
  rcases foldl_sel_mem
      (fun b i => if (popGet pop i).fitness < (popGet pop b).fitness then i else b)
      (fun b i => by
        by_cases hc : (popGet pop i).fitness < (popGet pop b).fitness
        · right; simp [hc]
        · left; simp [hc])
      (intRange (start + 1) fin) start with hm | hm
  · rw [hm]; exact ⟨le_refl _, h⟩
  · have := mem_intRange.mp hm; omega

theorem find_worst_index_bounds (pop : List Chromosome) (start fin : ℤ) (h : start ≤ fin) :
    start ≤ find_worst_index pop start fin ∧ find_worst_index pop start fin ≤ fin := by
  unfold find_worst_index
  rcases foldl_sel_mem
      (fun w i => if (popGet pop w).fitness < (popGet pop i).fitness then i else w)
      (fun w i => by
        by_cases hc : (popGet pop w).fitness < (popGet pop i).fitness
        · right; simp [hc]
        · left; simp [hc])
      (intRange (start + 1) fin) start with hm | hm
  · rw [hm]; exact ⟨le_refl _, h⟩
  · have := mem_intRange.mp hm; omega

theorem popGet_popSet_ne (p : List Chromosome) (w i : ℤ) (c : Chromosome)
    (h0w : 0 ≤ w) (h0i : 0 ≤ i) (hne : i ≠ w) :
    popGet (popSet p w c) i = popGet p i := by
  unfold popGet popSet
  rw [List.getD_eq_getElem?_getD, List.getD_eq_getElem?_getD, List.getElem?_set]
  have hnat : w.toNat ≠ i.toNat := by omega
  simp [hnat]

theorem popGet_popSet_eq (p : List Chromosome) (w : ℤ) (c : Chromosome)
    (hlen : w.toNat < p.length) :
    popGet (popSet p w c) w = c := by
  unfold popGet popSet
  rw [List.getD_eq_getElem?_getD, List.getElem?_set]
  simp [hlen]

theorem length_popSet (p : List Chromosome) (w : ℤ) (c : Chromosome) :
    (popSet p w c).length = p.length := by
  unfold popSet
  exact List.length_set p w.toNat c

theorem popGet_mem (pop : List Chromosome) (i : ℤ) (h0 : 0 ≤ i)
    (hlen : i.toNat < pop.length) : popGet pop i ∈ pop := by
  unfold popGet
  rw [List.getD_eq_getElem?_getD, List.getElem?_eq_getElem hlen]
  exact List.getElem_mem hlen

theorem bestFold_congr (pop qop : List Chromosome) (lo hi : ℤ)
    (h : ∀ i : ℤ, lo ≤ i → i ≤ hi → popGet pop i = popGet qop i) :
    ∀ L : List ℤ, (∀ x ∈ L, lo ≤ x ∧ x ≤ hi) →
      ∀ b, lo ≤ b → b ≤ hi →
      L.foldl (fun b i => if (popGet pop i).fitness < (popGet pop b).fitness
        then i else b) b =
      L.foldl (fun b i => if (popGet qop i).fitness < (popGet qop b).fitness
        then i else b) b := by
  intro L
  induction L with
  | nil => intros; rfl
  | cons x t ih =>
      intro hmem b hlb hbh
      have hx := hmem x (List.mem_cons_self x t)
      have hcond : ((popGet pop x).fitness < (popGet pop b).fitness) ↔
          ((popGet qop x).fitness < (popGet qop b).fitness) := by
        rw [h x hx.1 hx.2, h b hlb hbh]
      rw [List.foldl_cons, List.foldl_cons]
      by_cases hc : (popGet pop x).fitness < (popGet pop b).fitness
      · rw [if_pos hc, if_pos (hcond.mp hc)]
        exact ih (fun y hy => hmem y (List.mem_cons_of_mem x hy)) x hx.1 hx.2
      · rw [if_neg hc, if_neg (fun hq => hc (hcond.mpr hq))]
        exact ih (fun y hy => hmem y (List.mem_cons_of_mem x hy)) b hlb hbh

theorem worstFold_congr (pop qop : List Chromosome) (lo hi : ℤ)
    (h : ∀ i : ℤ, lo ≤ i → i ≤ hi → popGet pop i = popGet qop i) :
    ∀ L : List ℤ, (∀ x ∈ L, lo ≤ x ∧ x ≤ hi) →
      ∀ b, lo ≤ b → b ≤ hi →
      L.foldl (fun w i => if (popGet pop w).fitness < (popGet pop i).fitness
        then i else w) b =
      L.foldl (fun w i => if (popGet qop w).fitness < (popGet qop i).fitness
        then i else w) b := by
  intro L
  induction L with
  | nil => intros; rfl
  | cons x t ih =>
      intro hmem b hlb hbh
      have hx := hmem x (List.mem_cons_self x t)
      have hcond : ((popGet pop b).fitness < (popGet pop x).fitness) ↔
          ((popGet qop b).fitness < (popGet qop x).fitness) := by
        rw [h x hx.1 hx.2, h b hlb hbh]
      rw [List.foldl_cons, List.foldl_cons]
      by_cases hc : (popGet pop b).fitness < (popGet pop x).fitness
      · rw [if_pos hc, if_pos (hcond.mp hc)]
        exact ih (fun y hy => hmem y (List.mem_cons_of_mem x hy)) x hx.1 hx.2
      · rw [if_neg hc, if_neg (fun hq => hc (hcond.mpr hq))]
        exact ih (fun y hy => hmem y (List.mem_cons_of_mem x hy)) b hlb hbh

theorem find_worst_index_congr (pop qop : List Chromosome) (start fin : ℤ)
    (hsf : start ≤ fin)
    (h : ∀ i : ℤ, start ≤ i → i ≤ fin → popGet pop i = popGet qop i) :
    find_worst_index pop start fin = find_worst_index qop start fin := by
  unfold find_worst_index
  exact worstFold_congr pop qop start fin h (intRange (start + 1) fin)
    (fun x hx => by have := mem_intRange.mp hx; omega) start (le_refl _) hsf

/-- A concrete 4-chromosome population (one chromosome per island when
`population_size = 4`), with distinct genomes and fitness 1, 10, 20, 30. -/
def migEx : List Chromosome :=
  [⟨[⟨.circle 1 0 1, 0, 0, 0, 0⟩], 1, 1⟩,
   ⟨[⟨.circle 2 0 1, 0, 0, 0, 0⟩], 1, 10⟩,
   ⟨[⟨.circle 3 0 1, 0, 0, 0, 0⟩], 1, 20⟩,
   ⟨[⟨.circle 4 0 1, 0, 0, 0, 0⟩], 1, 30⟩]

/-- **C2, counterexample**: with `population_size = 4` (four singleton
islands) and fitness `1, 10, 20, 30`, after `migrate` the worst slot of
island 1 does *not* hold the genome/fitness of island 0's pre-migration
best.  Each island's best is also its worst slot, so `migrants[0]`
(a pointer into island 0) is overwritten at `dest = 0` before it is read
at `dest = 1`: island 1 receives island 3's chromosome (fitness 30)
instead of island 0's recorded best (fitness 1). -/
theorem claim_C2_counterexample :
    ¬ (((popGet (migrate (islandPartition 4) migEx)
          (find_worst_index migEx ((islandPartition 4).getD 1 default).start
            ((islandPartition 4).getD 1 default).fin)).shapes =
        (find_best migEx ((islandPartition 4).getD 0 default).start
          ((islandPartition 4).getD 0 default).fin).shapes) ∧
       ((popGet (migrate (islandPartition 4) migEx)
          (find_worst_index migEx ((islandPartition 4).getD 1 default).start
            ((islandPartition 4).getD 1 default).fin)).fitness =
        (find_best migEx ((islandPartition 4).getD 0 default).start
          ((islandPartition 4).getD 0 default).fin).fitness)) := by
  decide

theorem copyChrom_full (dst src : Chromosome) (nb : ℕ)
    (h1 : dst.n_shapes = nb) (h2 : src.n_shapes = nb)
    (h3 : dst.shapes.length = nb) (h4 : src.shapes.length = nb) :
    copyChrom dst src = { dst with shapes := src.shapes } := by
  unfold copyChrom
  rw [if_neg (by omega)]
  have ht : src.shapes.take src.n_shapes = src.shapes := by
    rw [h2, ← h4, List.take_length]
  have hd : dst.shapes.drop src.n_shapes = [] := by
    rw [h2, ← h3, List.drop_length]
  rw [ht, hd, List.append_nil]

theorem migrateStep4_0 (r0 r1 r2 r3 : IslandRange) (m0 m1 m2 m3 : ℤ)
    (p : List Chromosome) :
    migrateStep [r0, r1, r2, r3] [m0, m1, m2, m3] p 0 =
      popSet p (find_worst_index p r0.start r0.fin)
        { copyChrom (popGet p (find_worst_index p r0.start r0.fin)) (popGet p m3) with
          fitness := (popGet p m3).fitness } := rfl

theorem migrateStep4_1 (r0 r1 r2 r3 : IslandRange) (m0 m1 m2 m3 : ℤ)
    (p : List Chromosome) :
    migrateStep [r0, r1, r2, r3] [m0, m1, m2, m3] p 1 =
      popSet p (find_worst_index p r1.start r1.fin)
        { copyChrom (popGet p (find_worst_index p r1.start r1.fin)) (popGet p m0) with
          fitness := (popGet p m0).fitness } := by
  unfold migrateStep
  norm_num

theorem migrateStep4_2 (r0 r1 r2 r3 : IslandRange) (m0 m1 m2 m3 : ℤ)
    (p : List Chromosome) :
    migrateStep [r0, r1, r2, r3] [m0, m1, m2, m3] p 2 =
      popSet p (find_worst_index p r2.start r2.fin)
        { copyChrom (popGet p (find_worst_index p r2.start r2.fin)) (popGet p m1) with
          fitness := (popGet p m1).fitness } := by
  unfold migrateStep
  norm_num

theorem migrateStep4_3 (r0 r1 r2 r3 : IslandRange) (m0 m1 m2 m3 : ℤ)
    (p : List Chromosome) :
    migrateStep [r0, r1, r2, r3] [m0, m1, m2, m3] p 3 =
      popSet p (find_worst_index p r3.start r3.fin)
        { copyChrom (popGet p (find_worst_index p r3.start r3.fin)) (popGet p m2) with
          fitness := (popGet p m2).fitness } := by
  unfold migrateStep
  norm_num
  rfl

/-- **C2, amended**: for every population split into four ordered,
disjoint, non-empty islands `r0..r3`, *provided that in each island that
serves as a source after having been written (`r0`, `r1`, `r2`) the
best index differs from the worst index*, `migrate` stores in each
island's pre-migration worst slot the genome and cached fitness of the
ring-predecessor island's pre-migration best.  (Without the proviso the
migrant pointer may be overwritten before it is read, see the
counterexample.) -/
theorem claim_C2_migration_amended (pop : List Chromosome) (nN nb : ℕ)
    (r0 r1 r2 r3 : IslandRange)
    (hlen : pop.length = nN)
    (hns : ∀ c ∈ pop, c.n_shapes = nb ∧ c.shapes.length = nb)
    (hr0s : 0 ≤ r0.start) (hr0 : r0.start ≤ r0.fin) (h01 : r0.fin < r1.start)
    (hr1 : r1.start ≤ r1.fin) (h12 : r1.fin < r2.start)
    (hr2 : r2.start ≤ r2.fin) (h23 : r2.fin < r3.start)
    (hr3 : r3.start ≤ r3.fin) (hr3e : r3.fin ≤ (nN : ℤ) - 1)
    (ha0 : findBestIdx pop r0.start r0.fin ≠ find_worst_index pop r0.start r0.fin)
    (ha1 : findBestIdx pop r1.start r1.fin ≠ find_worst_index pop r1.start r1.fin)
    (ha2 : findBestIdx pop r2.start r2.fin ≠ find_worst_index pop r2.start r2.fin) :
    ((popGet (migrate [r0, r1, r2, r3] pop)
        (find_worst_index pop r0.start r0.fin)).shapes =
          (find_best pop r3.start r3.fin).shapes ∧
      (popGet (migrate [r0, r1, r2, r3] pop)
        (find_worst_index pop r0.start r0.fin)).fitness =
          (find_best pop r3.start r3.fin).fitness) ∧
    ((popGet (migrate [r0, r1, r2, r3] pop)
        (find_worst_index pop r1.start r1.fin)).shapes =
          (find_best pop r0.start r0.fin).shapes ∧
      (popGet (migrate [r0, r1, r2, r3] pop)
        (find_worst_index pop r1.start r1.fin)).fitness =
          (find_best pop r0.start r0.fin).fitness) ∧
    ((popGet (migrate [r0, r1, r2, r3] pop)
        (find_worst_index pop r2.start r2.fin)).shapes =
          (find_best pop r1.start r1.fin).shapes ∧
      (popGet (migrate [r0, r1, r2, r3] pop)
        (find_worst_index pop r2.start r2.fin)).fitness =
          (find_best pop r1.start r1.fin).fitness) ∧
    ((popGet (migrate [r0, r1, r2, r3] pop)
        (find_worst_index pop r3.start r3.fin)).shapes =
          (find_best pop r2.start r2.fin).shapes ∧
      (popGet (migrate [r0, r1, r2, r3] pop)
        (find_worst_index pop r3.start r3.fin)).fitness =
          (find_best pop r2.start r2.fin).fitness) := by
  have hm : migrate [r0, r1, r2, r3] pop =
      migrateStep [r0, r1, r2, r3]
        [findBestIdx pop r0.start r0.fin, findBestIdx pop r1.start r1.fin,
         findBestIdx pop r2.start r2.fin, findBestIdx pop r3.start r3.fin]
        (migrateStep [r0, r1, r2, r3]
          [findBestIdx pop r0.start r0.fin, findBestIdx pop r1.start r1.fin,
           findBestIdx pop r2.start r2.fin, findBestIdx pop r3.start r3.fin]
          (migrateStep [r0, r1, r2, r3]
            [findBestIdx pop r0.start r0.fin, findBestIdx pop r1.start r1.fin,
             findBestIdx pop r2.start r2.fin, findBestIdx pop r3.start r3.fin]
            (migrateStep [r0, r1, r2, r3]
              [findBestIdx pop r0.start r0.fin, findBestIdx pop r1.start r1.fin,
               findBestIdx pop r2.start r2.fin, findBestIdx pop r3.start r3.fin]
              pop 0) 1) 2) 3 := rfl
  rw [migrateStep4_0, migrateStep4_1, migrateStep4_2, migrateStep4_3] at hm
  obtain ⟨hw0l, hw0r⟩ := find_worst_index_bounds pop r0.start r0.fin hr0
  obtain ⟨hw1l, hw1r⟩ := find_worst_index_bounds pop r1.start r1.fin hr1
  obtain ⟨hw2l, hw2r⟩ := find_worst_index_bounds pop r2.start r2.fin hr2
  obtain ⟨hw3l, hw3r⟩ := find_worst_index_bounds pop r3.start r3.fin hr3
  obtain ⟨hb0l, hb0r⟩ := findBestIdx_bounds pop r0.start r0.fin hr0
  obtain ⟨hb1l, hb1r⟩ := findBestIdx_bounds pop r1.start r1.fin hr1
  obtain ⟨hb2l, hb2r⟩ := findBestIdx_bounds pop r2.start r2.fin hr2
  obtain ⟨hb3l, hb3r⟩ := findBestIdx_bounds pop r3.start r3.fin hr3
  set b0 := findBestIdx pop r0.start r0.fin with hb0
  set b1 := findBestIdx pop r1.start r1.fin with hb1
  set b2 := findBestIdx pop r2.start r2.fin with hb2
  set b3 := findBestIdx pop r3.start r3.fin with hb3
  set w0 := find_worst_index pop r0.start r0.fin with hw0
  set w1 := find_worst_index pop r1.start r1.fin with hw1
  set w2 := find_worst_index pop r2.start r2.fin with hw2
  set w3 := find_worst_index pop r3.start r3.fin with hw3
  have hfb0 : find_best pop r0.start r0.fin = popGet pop b0 := by rw [hb0]; rfl
  have hfb1 : find_best pop r1.start r1.fin = popGet pop b1 := by rw [hb1]; rfl
  have hfb2 : find_best pop r2.start r2.fin = popGet pop b2 := by rw [hb2]; rfl
  have hfb3 : find_best pop r3.start r3.fin = popGet pop b3 := by rw [hb3]; rfl
  set v0 := { copyChrom (popGet pop w0) (popGet pop b3) with
    fitness := (popGet pop b3).fitness } with hv0
  set p1 := popSet pop w0 v0 with hp1
  have q1 : find_worst_index p1 r1.start r1.fin = w1 := by
    rw [hp1, hw1]
    refine find_worst_index_congr _ _ _ _ hr1 (fun i h1 h2 => ?_)
    exact popGet_popSet_ne pop w0 i v0 (by omega) (by omega) (by omega)
  rw [q1] at hm
  have q2 : popGet p1 b0 = popGet pop b0 := by
    rw [hp1]
    exact popGet_popSet_ne pop w0 b0 v0 (by omega) (by omega) (by omega)
  have q3 : popGet p1 w1 = popGet pop w1 := by
    rw [hp1]
    exact popGet_popSet_ne pop w0 w1 v0 (by omega) (by omega) (by omega)
  rw [q2, q3] at hm
  set v1 := { copyChrom (popGet pop w1) (popGet pop b0) with
    fitness := (popGet pop b0).fitness } with hv1
  set p2 := popSet p1 w1 v1 with hp2
  have q4 : find_worst_index p2 r2.start r2.fin = w2 := by
    rw [hp2, hp1, hw2]
    refine find_worst_index_congr _ _ _ _ hr2 (fun i h1 h2 => ?_)
    rw [popGet_popSet_ne _ w1 i v1 (by omega) (by omega) (by omega),
      popGet_popSet_ne pop w0 i v0 (by omega) (by omega) (by omega)]
  rw [q4] at hm
  have q5 : popGet p2 b1 = popGet pop b1 := by
    rw [hp2, hp1,
      popGet_popSet_ne _ w1 b1 v1 (by omega) (by omega) (by omega),
      popGet_popSet_ne pop w0 b1 v0 (by omega) (by omega) (by omega)]
  have q6 : popGet p2 w2 = popGet pop w2 := by
    rw [hp2, hp1,
      popGet_popSet_ne _ w1 w2 v1 (by omega) (by omega) (by omega),
      popGet_popSet_ne pop w0 w2 v0 (by omega) (by omega) (by omega)]
  rw [q5, q6] at hm
  set v2 := { copyChrom (popGet pop w2) (popGet pop b1) with
    fitness := (popGet pop b1).fitness } with hv2
  set p3 := popSet p2 w2 v2 with hp3
  have q7 : find_worst_index p3 r3.start r3.fin = w3 := by
    rw [hp3, hp2, hp1, hw3]
    refine find_worst_index_congr _ _ _ _ hr3 (fun i h1 h2 => ?_)
    rw [popGet_popSet_ne _ w2 i v2 (by omega) (by omega) (by omega),
      popGet_popSet_ne _ w1 i v1 (by omega) (by omega) (by omega),
      popGet_popSet_ne pop w0 i v0 (by omega) (by omega) (by omega)]
  rw [q7] at hm
  have q8 : popGet p3 b2 = popGet pop b2 := by
    rw [hp3, hp2, hp1,
      popGet_popSet_ne _ w2 b2 v2 (by omega) (by omega) (by omega),
      popGet_popSet_ne _ w1 b2 v1 (by omega) (by omega) (by omega),
      popGet_popSet_ne pop w0 b2 v0 (by omega) (by omega) (by omega)]
  have q9 : popGet p3 w3 = popGet pop w3 := by
    rw [hp3, hp2, hp1,
      popGet_popSet_ne _ w2 w3 v2 (by omega) (by omega) (by omega),
      popGet_popSet_ne _ w1 w3 v1 (by omega) (by omega) (by omega),
      popGet_popSet_ne pop w0 w3 v0 (by omega) (by omega) (by omega)]
  rw [q8, q9] at hm
  set v3 := { copyChrom (popGet pop w3) (popGet pop b2) with
    fitness := (popGet pop b2).fitness } with hv3
  have hlen1 : p1.length = nN := by rw [hp1, length_popSet, hlen]
  have hlen2 : p2.length = nN := by rw [hp2, length_popSet, hlen1]
  have hlen3 : p3.length = nN := by rw [hp3, length_popSet, hlen2]
  have f0 : popGet (popSet p3 w3 v3) w0 = v0 := by
    rw [popGet_popSet_ne p3 w3 w0 v3 (by omega) (by omega) (by omega),
      hp3, popGet_popSet_ne p2 w2 w0 v2 (by omega) (by omega) (by omega),
      hp2, popGet_popSet_ne p1 w1 w0 v1 (by omega) (by omega) (by omega),
      hp1, popGet_popSet_eq pop w0 v0 (by omega)]
  have f1 : popGet (popSet p3 w3 v3) w1 = v1 := by
    rw [popGet_popSet_ne p3 w3 w1 v3 (by omega) (by omega) (by omega),
      hp3, popGet_popSet_ne p2 w2 w1 v2 (by omega) (by omega) (by omega),
      hp2, popGet_popSet_eq p1 w1 v1 (by omega)]
  have f2 : popGet (popSet p3 w3 v3) w2 = v2 := by
    rw [popGet_popSet_ne p3 w3 w2 v3 (by omega) (by omega) (by omega),
      hp3, popGet_popSet_eq p2 w2 v2 (by omega)]
  have f3 : popGet (popSet p3 w3 v3) w3 = v3 := popGet_popSet_eq p3 w3 v3 (by omega)
  obtain ⟨hnw0, hlw0⟩ := hns _ (popGet_mem pop w0 (by omega) (by omega))
  obtain ⟨hnw1, hlw1⟩ := hns _ (popGet_mem pop w1 (by omega) (by omega))
  obtain ⟨hnw2, hlw2⟩ := hns _ (popGet_mem pop w2 (by omega) (by omega))
  obtain ⟨hnw3, hlw3⟩ := hns _ (popGet_mem pop w3 (by omega) (by omega))
  obtain ⟨hnb0, hlb0⟩ := hns _ (popGet_mem pop b0 (by omega) (by omega))
  obtain ⟨hnb1, hlb1⟩ := hns _ (popGet_mem pop b1 (by omega) (by omega))
  obtain ⟨hnb2, hlb2⟩ := hns _ (popGet_mem pop b2 (by omega) (by omega))
  obtain ⟨hnb3, hlb3⟩ := hns _ (popGet_mem pop b3 (by omega) (by omega))
  have c0 : copyChrom (popGet pop w0) (popGet pop b3) =
      { popGet pop w0 with shapes := (popGet pop b3).shapes } :=
    copyChrom_full _ _ nb hnw0 hnb3 hlw0 hlb3
  have c1 : copyChrom (popGet pop w1) (popGet pop b0) =
      { popGet pop w1 with shapes := (popGet pop b0).shapes } :=
    copyChrom_full _ _ nb hnw1 hnb0 hlw1 hlb0
  have c2 : copyChrom (popGet pop w2) (popGet pop b1) =
      { popGet pop w2 with shapes := (popGet pop b1).shapes } :=
    copyChrom_full _ _ nb hnw2 hnb1 hlw2 hlb1
  have c3 : copyChrom (popGet pop w3) (popGet pop b2) =
      { popGet pop w3 with shapes := (popGet pop b2).shapes } :=
    copyChrom_full _ _ nb hnw3 hnb2 hlw3 hlb2
  refine ⟨⟨?_, ?_⟩, ⟨?_, ?_⟩, ⟨?_, ?_⟩, ⟨?_, ?_⟩⟩
  · rw [hm, f0, hfb3, hv0, c0]
  · rw [hm, f0, hfb3, hv0]
  · rw [hm, f1, hfb0, hv1, c1]
  · rw [hm, f1, hfb0, hv1]
  · rw [hm, f2, hfb1, hv2, c2]
  · rw [hm, f2, hfb1, hv2]
  · rw [hm, f3, hfb2, hv3, c3]
  · rw [hm, f3, hfb2, hv3]

/-- A concrete 8-chromosome population: islands `[0,1] [2,3] [4,5] [6,7]`
with distinct fitness values, so each island's best slot differs from its
worst slot. -/
def migEx8 : List Chromosome :=
  [⟨[⟨.circle 1 0 1, 0, 0, 0, 0⟩], 1, 1⟩,
   ⟨[⟨.circle 2 0 1, 0, 0, 0, 0⟩], 1, 2⟩,
   ⟨[⟨.circle 3 0 1, 0, 0, 0, 0⟩], 1, 3⟩,
   ⟨[⟨.circle 4 0 1, 0, 0, 0, 0⟩], 1, 4⟩,
   ⟨[⟨.circle 5 0 1, 0, 0, 0, 0⟩], 1, 5⟩,
   ⟨[⟨.circle 6 0 1, 0, 0, 0, 0⟩], 1, 6⟩,
   ⟨[⟨.circle 7 0 1, 0, 0, 0, 0⟩], 1, 7⟩,
   ⟨[⟨.circle 8 0 1, 0, 0, 0, 0⟩], 1, 8⟩]

/-- Witness for the amended C2 on `migEx8`. -/
theorem claim_C2_migration_amended_witness :
    ((popGet (migrate [⟨0, 1⟩, ⟨2, 3⟩, ⟨4, 5⟩, ⟨6, 7⟩] migEx8)
        (find_worst_index migEx8 (0 : ℤ) 1)).shapes =
          (find_best migEx8 (6 : ℤ) 7).shapes ∧
      (popGet (migrate [⟨0, 1⟩, ⟨2, 3⟩, ⟨4, 5⟩, ⟨6, 7⟩] migEx8)
        (find_worst_index migEx8 (0 : ℤ) 1)).fitness =
          (find_best migEx8 (6 : ℤ) 7).fitness) ∧
    ((popGet (migrate [⟨0, 1⟩, ⟨2, 3⟩, ⟨4, 5⟩, ⟨6, 7⟩] migEx8)
        (find_worst_index migEx8 (2 : ℤ) 3)).shapes =
          (find_best migEx8 (0 : ℤ) 1).shapes ∧
      (popGet (migrate [⟨0, 1⟩, ⟨2, 3⟩, ⟨4, 5⟩, ⟨6, 7⟩] migEx8)
        (find_worst_index migEx8 (2 : ℤ) 3)).fitness =
          (find_best migEx8 (0 : ℤ) 1).fitness) ∧
    ((popGet (migrate [⟨0, 1⟩, ⟨2, 3⟩, ⟨4, 5⟩, ⟨6, 7⟩] migEx8)
        (find_worst_index migEx8 (4 : ℤ) 5)).shapes =
          (find_best migEx8 (2 : ℤ) 3).shapes ∧
      (popGet (migrate [⟨0, 1⟩, ⟨2, 3⟩, ⟨4, 5⟩, ⟨6, 7⟩] migEx8)
        (find_worst_index migEx8 (4 : ℤ) 5)).fitness =
          (find_best migEx8 (2 : ℤ) 3).fitness) ∧
    ((popGet (migrate [⟨0, 1⟩, ⟨2, 3⟩, ⟨4, 5⟩, ⟨6, 7⟩] migEx8)
        (find_worst_index migEx8 (6 : ℤ) 7)).shapes =
          (find_best migEx8 (4 : ℤ) 5).shapes ∧
      (popGet (migrate [⟨0, 1⟩, ⟨2, 3⟩, ⟨4, 5⟩, ⟨6, 7⟩] migEx8)
        (find_worst_index migEx8 (6 : ℤ) 7)).fitness =
          (find_best migEx8 (4 : ℤ) 5).fitness) :=
  claim_C2_migration_amended migEx8 8 1 ⟨0, 1⟩ ⟨2, 3⟩ ⟨4, 5⟩ ⟨6, 7⟩
    (by decide) (by decide) (by decide) (by decide) (by decide) (by decide)
    (by decide) (by decide) (by decide) (by decide) (by decide) (by decide)
    (by decide) (by decide)

/-! ## Engine start-up, from the head of `ga_thread_func` -/

/-- `GAParams` from `genetic_structs.h` (C `int` fields over `ℤ`,
`float` rates over `ℚ`). -/
structure GAParams where
  population_size : ℤ
  nb_shapes : ℤ
  elite_count : ℤ
  mutation_rate : ℚ
  crossover_rate : ℚ
  max_iterations : ℤ
  deriving DecidableEq, Repr

/-- Outcome of the pre-loop phase of `ga_thread_func` (lines 659–716):
either the `pop`/`new_pop` allocation fails and the function returns
before creating any worker thread, or it partitions the population and
spawns the workers. -/
inductive StartOutcome where
  | oom
  | spawned (islands : List IslandRange) (workers : ℕ)
  deriving DecidableEq, Repr

/-- Model of the start of `ga_thread_func`: the function performs *no*
validation of the parameters.  It initialises the barrier, allocates the
two pointer arrays (failure → return), partitions the population into
`ISLAND_COUNT` islands and immediately spawns `ISLAND_COUNT` workers
with `pthread_create`. -/
def gaStart (p : GAParams) (mallocOk : Bool) : StartOutcome :=
  if !mallocOk then .oom
  else .spawned (islandPartition p.population_size) ISLAND_COUNT

/-- An invalid configuration: `population_size = 0 < ISLAND_COUNT`,
`nb_shapes = 0`, and both rates outside `[0, 1]`. -/
def badParams : GAParams :=
  ⟨0, 0, 0, 2, -1, 10⟩

/-- **C7, counterexample**: with an invalid configuration (all of the
claim's invalid conditions at once) the engine still reaches worker
spawning: `ga_thread_func` contains no configuration check at all. -/
theorem claim_C7_counterexample :
    (badParams.population_size < (ISLAND_COUNT : ℤ) ∧ badParams.nb_shapes = 0 ∧
      badParams.mutation_rate > 1 ∧ badParams.crossover_rate < 0) ∧
    gaStart badParams true = .spawned (islandPartition 0) ISLAND_COUNT ∧
    gaStart badParams true ≠ .oom := by
  refine ⟨⟨by decide, rfl, by decide, by decide⟩, rfl, by decide⟩

/-- **C7, amended**: `ga_thread_func` performs no configuration
validation: whenever the allocation of the population pointer arrays
succeeds, it spawns `ISLAND_COUNT` worker threads regardless of the
parameter values (null context/parameters are undefined behaviour, not a
graceful failure); the only pre-spawn failure path is allocation
failure. -/
theorem claim_C7_no_validation (p : GAParams) :
    gaStart p true = .spawned (islandPartition p.population_size) ISLAND_COUNT ∧
    gaStart p false = .oom :=
  ⟨rfl, rfl⟩

/-! ## Reproduction under allocation failure (C8), from
`ga_thread_func` lines 783–827 -/

/-- The set of `new_pop` slot indices the reproduction loop assigns,
given which child allocations succeed.  Per island: the elite slot
`isl.start` is always assigned (a pointer copy, no allocation); the loop
over the remaining slots allocates a child per slot and, on the first
`chromosome_create` failure, prints an error and `break`s out of *that
island's* loop only — the outer island loop continues, and afterwards
control falls through to the barrier release unconditionally. -/
def reproduceAssignedSlots (isl : List IslandRange) (allocOk : ℤ → Bool) : List ℤ :=
  isl.foldl (fun acc r =>
    acc ++ r.start :: (intRange (r.start + 1) r.fin).takeWhile (fun i => allocOk i)) []

/-- Outcome of one reproduction phase: which slots were filled, and
whether the engine went on to release the evaluation workers
(`g_eval_pop = new_pop; pthread_barrier_wait(&bar)` — reached on every
path, there is no early return). -/
structure ReproOutcome where
  assigned : List ℤ
  evalReleased : Bool
  deriving DecidableEq, Repr

/-- Model of the reproduction phase of one generation: the barrier
release always follows, even after an allocation failure. -/
def reproducePhase (isl : List IslandRange) (allocOk : ℤ → Bool) : ReproOutcome :=
  { assigned := reproduceAssignedSlots isl allocOk, evalReleased := true }

/-- **C8**: when allocating the child for slot 1 fails (population 8,
islands `[0,1] [2,3] [4,5] [6,7]`), the reproduction loop merely breaks
out of island 0's inner loop: slot 1 of `new_pop` is never assigned,
island 1's child (slot 3) is still produced, and the workers are
released to evaluate the partially constructed `new_pop` anyway — the
engine neither frees the generation nor terminates. -/
theorem claim_C8_partial_generation_evaluated :
    (reproducePhase [⟨0, 1⟩, ⟨2, 3⟩, ⟨4, 5⟩, ⟨6, 7⟩]
        (fun i => decide (i ≠ 1))).evalReleased = true ∧
    (1 : ℤ) ∉ (reproducePhase [⟨0, 1⟩, ⟨2, 3⟩, ⟨4, 5⟩, ⟨6, 7⟩]
        (fun i => decide (i ≠ 1))).assigned ∧
    (3 : ℤ) ∈ (reproducePhase [⟨0, 1⟩, ⟨2, 3⟩, ⟨4, 5⟩, ⟨6, 7⟩]
        (fun i => decide (i ≠ 1))).assigned := by
  refine ⟨rfl, by decide, by decide⟩

/-! ## Engine generation model (C9), from the main loop of
`ga_thread_func`

The control flow, the GA operators and the pointer behaviour of `best`
are modelled exactly; the deterministic render-and-compare pipeline
(`render_chrom` + `fitness_px` on the fixed 640×480 canvas) is
abstracted as a parameter `F : List Gene → ℚ` applied to a chromosome's
first `n_shapes` genes, and the `rand()` stream is an explicit list
consumed in source order. -/

/-- glibc `RAND_MAX`. -/
def RAND_MAX : ℕ := 2147483647

/-- `INFINITY`, as stored by `chromosome_create` / `random_init_chrom`;
always overwritten by an evaluation before it is compared. -/
def INF : ℚ := 10 ^ 300

/-- A zero-initialised gene, as `calloc` produces in `chromosome_create`
(`type = 0` is `SHAPE_CIRCLE`, all fields 0). -/
def zeroGene : Gene := ⟨.circle 0 0 0, 0, 0, 0, 0⟩

/-- `chromosome_create(n)` (successful allocation). -/
def chromosome_create (n : ℕ) : Chromosome :=
  ⟨List.replicate n zeroGene, n, INF⟩

/-- `random_gene()`: coin for circle vs triangle, geometry uniform on
the canvas, radius in `[1, 50]`, then R,G,B,A each `rand() % 256`. -/
def random_gene (rng : List ℕ) : Gene × List ℕ :=
  let coin := rng.headD 0
  let t0 := rng.tail
  if coin % 2 = 1 then
    let cx := t0.headD 0 % 640
    let t1 := t0.tail
    let cy := t1.headD 0 % 480
    let t2 := t1.tail
    let rad := t2.headD 0 % 50 + 1
    let t3 := t2.tail
    let r := t3.headD 0 % 256
    let t4 := t3.tail
    let g := t4.headD 0 % 256
    let t5 := t4.tail
    let b := t5.headD 0 % 256
    let t6 := t5.tail
    let a := t6.headD 0 % 256
    (⟨.circle (cx : ℤ) (cy : ℤ) ((rad : ℕ) : ℤ), r, g, b, a⟩, t6.tail)
  else
    let x1 := t0.headD 0 % 640
    let t1 := t0.tail
    let y1 := t1.headD 0 % 480
    let t2 := t1.tail
    let x2 := t2.headD 0 % 640
    let t3 := t2.tail
    let y2 := t3.headD 0 % 480
    let t4 := t3.tail
    let x3 := t4.headD 0 % 640
    let t5 := t4.tail
    let y3 := t5.headD 0 % 480
    let t6 := t5.tail
    let r := t6.headD 0 % 256
    let t7 := t6.tail
    let g := t7.headD 0 % 256
    let t8 := t7.tail
    let b := t8.headD 0 % 256
    let t9 := t8.tail
    let a := t9.headD 0 % 256
    (⟨.triangle (x1 : ℤ) (y1 : ℤ) (x2 : ℤ) (y2 : ℤ) (x3 : ℤ) (y3 : ℤ), r, g, b, a⟩,
      t9.tail)

/-- `mutate_gene(g)`: nine-way switch on `rand() % 9`; the triangle-only
cases 4–6 consume no random number on circles (the `rand()` call sits
inside the `if`). -/
def mutate_gene (g : Gene) (rng : List ℕ) : Gene × List ℕ :=
  let c := rng.headD 0 % 9
  let t := rng.tail
  if c = 0 then random_gene t
  else if c = 1 then
    match g.geom with
    | .circle _ cy rad => ({ g with geom := .circle ((t.headD 0 % 640 : ℕ) : ℤ) cy rad }, t.tail)
    | .triangle _ y1 x2 y2 x3 y3 =>
        ({ g with geom := .triangle ((t.headD 0 % 640 : ℕ) : ℤ) y1 x2 y2 x3 y3 }, t.tail)
  else if c = 2 then
    match g.geom with
    | .circle cx _ rad => ({ g with geom := .circle cx ((t.headD 0 % 480 : ℕ) : ℤ) rad }, t.tail)
    | .triangle x1 _ x2 y2 x3 y3 =>
        ({ g with geom := .triangle x1 ((t.headD 0 % 480 : ℕ) : ℤ) x2 y2 x3 y3 }, t.tail)
  else if c = 3 then
    match g.geom with
    | .circle cx cy _ => ({ g with geom := .circle cx cy ((t.headD 0 % 50 + 1 : ℕ) : ℤ) }, t.tail)
    | .triangle x1 y1 _ y2 x3 y3 =>
        ({ g with geom := .triangle x1 y1 ((t.headD 0 % 640 : ℕ) : ℤ) y2 x3 y3 }, t.tail)
  else if c = 4 then
    match g.geom with
    | .circle _ _ _ => (g, t)
    | .triangle x1 y1 x2 _ x3 y3 =>
        ({ g with geom := .triangle x1 y1 x2 ((t.headD 0 % 480 : ℕ) : ℤ) x3 y3 }, t.tail)
  else if c = 5 then
    match g.geom with
    | .circle _ _ _ => (g, t)
    | .triangle x1 y1 x2 y2 _ y3 =>
        ({ g with geom := .triangle x1 y1 x2 y2 ((t.headD 0 % 640 : ℕ) : ℤ) y3 }, t.tail)
  else if c = 6 then
    match g.geom with
    | .circle _ _ _ => (g, t)
    | .triangle x1 y1 x2 y2 x3 _ =>
        ({ g with geom := .triangle x1 y1 x2 y2 x3 ((t.headD 0 % 480 : ℕ) : ℤ) }, t.tail)
  else if c = 7 then
    let r := t.headD 0 % 256
    let t1 := t.tail
    let gg := t1.headD 0 % 256
    let t2 := t1.tail
    let b := t2.headD 0 % 256
    ({ g with r := r, g := gg, b := b }, t2.tail)
  else
    ({ g with a := t.headD 0 % 256 }, t.tail)

/-- The Bernoulli draw `(float)rand() / (float)RAND_MAX < rate` of the
reproduction loop, computed by cross-multiplication so that it is
kernel-computable; `randLtRate_iff` proves it equivalent to the
source's quotient comparison. -/
def randLtRate (mr : ℕ) (rate : ℚ) : Bool :=
  decide ((mr : ℤ) * (rate.den : ℤ) < rate.num * (RAND_MAX : ℤ))

theorem randLtRate_iff (mr : ℕ) (rate : ℚ) :
    randLtRate mr rate = true ↔ ((mr : ℚ) / (RAND_MAX : ℚ)) < rate := by
  unfold randLtRate
  rw [decide_eq_true_iff]
  have hRM : (0 : ℚ) < (RAND_MAX : ℚ) := by norm_num [RAND_MAX]
  have hden : (0 : ℚ) < ((rate.den : ℤ) : ℚ) := by
    exact_mod_cast Int.ofNat_pos.mpr rate.pos
  rw [div_lt_iff₀ hRM]
  constructor
  · intro h
    have hq : ((mr : ℚ)) * ((rate.den : ℤ) : ℚ) < ((rate.num : ℚ)) * ((RAND_MAX : ℚ)) := by
      exact_mod_cast h
    have := (div_lt_div_iff_of_pos_right hden).mpr hq
    calc (mr : ℚ) = (mr : ℚ) * ((rate.den : ℤ) : ℚ) / ((rate.den : ℤ) : ℚ) := by
          field_simp
      _ < (rate.num : ℚ) * (RAND_MAX : ℚ) / ((rate.den : ℤ) : ℚ) := this
      _ = (rate.num : ℚ) / ((rate.den : ℤ) : ℚ) * (RAND_MAX : ℚ) := by ring
      _ = rate * (RAND_MAX : ℚ) := by
          rw [show ((rate.num : ℚ)) / (((rate.den : ℤ)) : ℚ) = rate by
            exact_mod_cast Rat.num_div_den rate]
  · intro h
    have hrate : rate = (rate.num : ℚ) / ((rate.den : ℤ) : ℚ) := by
      exact_mod_cast (Rat.num_div_den rate).symm
    rw [hrate] at h
    have h2 : (mr : ℚ) * ((rate.den : ℤ) : ℚ) < (rate.num : ℚ) * (RAND_MAX : ℚ) := by
      have := (mul_lt_mul_of_pos_right h hden)
      calc (mr : ℚ) * ((rate.den : ℤ) : ℚ) < (rate.num : ℚ) / ((rate.den : ℤ) : ℚ) *
            (RAND_MAX : ℚ) * ((rate.den : ℤ) : ℚ) := this
        _ = (rate.num : ℚ) * (RAND_MAX : ℚ) := by
            field_simp
    exact_mod_cast h2

/-- `tournament_in_range(arr, a, b)`: two uniform draws in `[a, b]`,
return the one with lower fitness (ties favour the first draw). -/
def tournament_in_range (pop : List Chromosome) (a b : ℤ) (rng : List ℕ) :
    Chromosome × List ℕ :=
  let r1 := rng.headD 0
  let t1 := rng.tail
  let r2 := t1.headD 0
  let t2 := t1.tail
  let c1 := popGet pop (a + (r1 : ℤ) % (b - a + 1))
  let c2 := popGet pop (a + (r2 : ℤ) % (b - a + 1))
  (if c1.fitness ≤ c2.fitness then c1 else c2, t2)

/-- The per-gene mutation loop of the reproduction step:
`for g < child->n_shapes: if rand()/RAND_MAX < mutation_rate then
mutate_gene(&child->shapes[g])`. -/
def mutateShapes (rate : ℚ) (shapes : List Gene) (rng : List ℕ) :
    List Gene × List ℕ :=
  shapes.foldl (fun acc g =>
    let mr := acc.2.headD 0
    let t := acc.2.tail
    if randLtRate mr rate then
      let gr := mutate_gene g t
      (acc.1 ++ [gr.1], gr.2)
    else (acc.1 ++ [g], t)) ([], rng)

/-- Reproduce one island: elite pointer copy into the island's first
slot (`some` marks the pointer-shared source index), then one child per
remaining slot: two tournaments, parent normalisation, crossover with
probability `crossover_rate` or an asexual genome copy, then the
mutation loop.  Child allocation is assumed to succeed (the failure path
is modelled separately for C8). -/
def reproduceIsland (p : GAParams) (pop1 : List Chromosome) (r : IslandRange)
    (rng : List ℕ) : List (Chromosome × Option ℤ) × List ℕ :=
  let eIdx := findBestIdx pop1 r.start r.fin
  (intRange (r.start + 1) r.fin).foldl (fun acc _i =>
    let ta := tournament_in_range pop1 r.start r.fin acc.2
    let tb := tournament_in_range pop1 r.start r.fin ta.2
    let pa := if tb.1.fitness < ta.1.fitness then tb.1 else ta.1
    let pb := if tb.1.fitness < ta.1.fitness then ta.1 else tb.1
    let r01 := tb.2.headD 0
    let t3 := tb.2.tail
    let child0 := chromosome_create p.nb_shapes.toNat
    let child1 := if randLtRate r01 p.crossover_rate
      then crossover pa pb child0
      else { child0 with
        shapes := pa.shapes.take pa.n_shapes ++ child0.shapes.drop pa.n_shapes }
    let ms := mutateShapes p.mutation_rate (child1.shapes.take child1.n_shapes) t3
    let child2 := { child1 with shapes := ms.1 ++ child1.shapes.drop child1.n_shapes }
    (acc.1 ++ [(child2, none)], ms.2))
    ([(popGet pop1 eIdx, some eIdx)], rng)

/-- Reproduce all islands in order; with the engine's contiguous island
partition the produced list is indexed exactly like `new_pop`. -/
def reproduce (p : GAParams) (pop1 : List Chromosome) (isl : List IslandRange)
    (rng : List ℕ) : List (Chromosome × Option ℤ) × List ℕ :=
  isl.foldl (fun acc r =>
    let ri := reproduceIsland p pop1 r acc.2
    (acc.1 ++ ri.1, ri.2)) ([], rng)

/-- Where the scan's `best` pointer currently points. -/
inductive BestRef where
  | old (i : Option ℤ)
  | new (i : ℕ)
  deriving DecidableEq, Repr

/-- State of the engine between generations: the remaining random
stream, the population, the location of the `best` pointer in `pop`
(`none` once the pointee has been freed), the pointee's value, the
published snapshot fitnesses (newest first), and the generation
counter. -/
structure EngineState where
  rng : List ℕ
  pop : List Chromosome
  bestLoc : Option ℤ
  bestVal : Chromosome
  published : List ℚ
  iter : ℕ
  deriving Repr

/-- The migration phase of one generation:
`if (iter % MIGRATION_INTERVAL == 0) migrate(isl, pop);`. -/
def migPop (p : GAParams) (st : EngineState) : List Chromosome :=
  if st.iter % MIGRATION_INTERVAL = 0 then
    migrate (islandPartition p.population_size) st.pop
  else st.pop

/-- The value `best` dereferences to during the scan: if the pointee is
an elite slot of `new_pop`, the parallel evaluation has just updated its
fitness in place; otherwise it is the (possibly migrated) population
entry; a freed pointee retains its frozen value. -/
def bestValAtScan (pop1 : List Chromosome) (evalPop : List (Chromosome × Option ℤ))
    (bestLoc : Option ℤ) (frozen : Chromosome) : Chromosome :=
  match bestLoc with
  | none => frozen
  | some b =>
      match evalPop.find? (fun cs => cs.2 = some b) with
      | some cs => cs.1
      | none => popGet pop1 b

/-- Dereference the `best` pointer against the (possibly migrated)
population; a freed pointee keeps its last value. -/
def bestDeref (st : EngineState) (pop1 : List Chromosome) : Chromosome :=
  match st.bestLoc with
  | some b => popGet pop1 b
  | none => st.bestVal

/-- The parallel evaluation phase: every `new_pop` chromosome's fitness
is recomputed as `F` of its genome (the workers' render-and-compare). -/
def evalNewPop (F : List Gene → ℚ) (l : List (Chromosome × Option ℤ)) :
    List (Chromosome × Option ℤ) :=
  l.map (fun cs => ({ cs.1 with fitness := F (cs.1.shapes.take cs.1.n_shapes) }, cs.2))

/-- The best-update scan (lines 831–839): for each `i`, if
`new_pop[i]->fitness < best->fitness` then `best = new_pop[i]` and the
snapshot is published with that fitness. -/
def scanPublish (evalPop : List (Chromosome × Option ℤ)) (b0 : Chromosome)
    (r0 : BestRef) (pub0 : List ℚ) : Chromosome × BestRef × List ℚ :=
  evalPop.enum.foldl (fun acc q =>
    if q.2.1.fitness < acc.1.fitness then (q.2.1, .new q.1, q.2.1.fitness :: acc.2.2)
    else acc) (b0, r0, pub0)

/-- The `new_pop` slot that carries the old population member `b` as an
elite (pointer identity survives generational replacement there). -/
def carriedSlot (evalPop : List (Chromosome × Option ℤ)) (b : ℤ) : Option ℤ :=
  (evalPop.enum.find? (fun q => q.2.2 = some b)).map (fun q => (q.1 : ℤ))

/-- Where the `best` pointer lives after generational replacement:
either the `new_pop` index the scan moved it to, or the slot that
carried its pointee as an elite, or nowhere (the pointee was freed). -/
def newBestLoc (evalPop : List (Chromosome × Option ℤ)) (r : BestRef) : Option ℤ :=
  match r with
  | .new i => some (i : ℤ)
  | .old (some b) => carriedSlot evalPop b
  | .old none => none

/-- One full generation of the GA master loop: migration, per-island
reproduction, parallel evaluation (fitness := `F` of the genome),
best-update scan with publication, then generational replacement (the
old generation is freed except for pointer-carried elites). -/
def gaGeneration (p : GAParams) (F : List Gene → ℚ) (st : EngineState) :
    EngineState :=
  let pop1 := migPop p st
  let rep := reproduce p pop1 (islandPartition p.population_size) st.rng
  let evalPop := evalNewPop F rep.1
  let sc := scanPublish evalPop
    (bestValAtScan pop1 evalPop st.bestLoc (bestDeref st pop1))
    (.old st.bestLoc) st.published
  { rng := rep.2, pop := evalPop.map (fun cs => cs.1),
    bestLoc := newBestLoc evalPop sc.2.1,
    bestVal := sc.1, published := sc.2.2, iter := st.iter + 1 }

/-- The initial population build of `ga_thread_func`: each chromosome is
allocated, filled with random genes (fitness briefly `INFINITY`), then
evaluated sequentially, so its stored fitness is `F` of its genome. -/
def genGenes (n : ℕ) (rng : List ℕ) : List Gene × List ℕ :=
  (List.range n).foldl (fun acc _ =>
    let gr := random_gene acc.2
    (acc.1 ++ [gr.1], gr.2)) ([], rng)

/-- Build the initial population. -/
def initPop (p : GAParams) (F : List Gene → ℚ) (rng : List ℕ) :
    List Chromosome × List ℕ :=
  (List.range p.population_size.toNat).foldl (fun acc _ =>
    let gg := genGenes p.nb_shapes.toNat acc.2
    (acc.1 ++ [⟨gg.1, p.nb_shapes.toNat, F (gg.1.take p.nb_shapes.toNat)⟩], gg.2))
    ([], rng)

/-- Engine initialisation: build and evaluate the initial population,
scan it for the best individual (the same earliest-minimum scan as
`find_best`), and publish that snapshot. -/
def gaInit (p : GAParams) (F : List Gene → ℚ) (rng : List ℕ) : EngineState :=
  let ip := initPop p F rng
  let b := findBestIdx ip.1 0 (p.population_size - 1)
  { rng := ip.2, pop := ip.1, bestLoc := some b, bestVal := popGet ip.1 b,
    published := [(popGet ip.1 b).fitness], iter := 1 }

/-- Run the engine for `gens` generations. -/
def gaRun (p : GAParams) (F : List Gene → ℚ) (rng : List ℕ) (gens : ℕ) :
    EngineState :=
  (gaGeneration p F)^[gens] (gaInit p F rng)

/-- The published best-snapshot fitnesses (newest first) never increase
over time. -/
def PublishedMonotone (l : List ℚ) : Prop := List.Chain' (· ≤ ·) l

/-- The migration of one generation does not overwrite the slot the
running `best` pointer refers to.  (The C9 counterexample is exactly a
run violating this.) -/
def MigrationSafe (p : GAParams) (st : EngineState) : Prop :=
  ∀ b : ℤ, st.bestLoc = some b → popGet (migPop p st) b = popGet st.pop b

theorem chrom_set_fitness_self (c : Chromosome) :
    ({ c with fitness := c.fitness } : Chromosome) = c := rfl

/-- Every `new_pop` slot that is marked as pointer-shared with the old
population (`some j`) holds exactly `pop1[j]` — only island elites are
stored that way. -/
theorem reproduceIsland_src (p : GAParams) (pop1 : List Chromosome)
    (r : IslandRange) (rng : List ℕ) :
    ∀ cs ∈ (reproduceIsland p pop1 r rng).1, ∀ j, cs.2 = some j →
      cs.1 = popGet pop1 j := by
  unfold reproduceIsland
  refine foldl_preserve
    (fun (acc : List (Chromosome × Option ℤ) × List ℕ) =>
      ∀ cs ∈ acc.1, ∀ j : ℤ, cs.2 = some j → cs.1 = popGet pop1 j)
    _ ?_ _ _ ?_
  · intro a i ha cs hcs j hj
    dsimp only at hcs
    rcases List.mem_append.mp hcs with h | h
    · exact ha cs h j hj
    · rw [List.mem_singleton.mp h] at hj
      simp at hj
  · intro cs hcs j hj
    rw [List.mem_singleton.mp hcs] at hj ⊢
    simp only [Option.some_inj] at hj
    rw [← hj]

/-- Lift `reproduceIsland_src` over all islands. -/
theorem reproduce_src (p : GAParams) (pop1 : List Chromosome)
    (isl : List IslandRange) (rng : List ℕ) :
    ∀ cs ∈ (reproduce p pop1 isl rng).1, ∀ j, cs.2 = some j →
      cs.1 = popGet pop1 j := by
  unfold reproduce
  refine foldl_preserve
    (fun (acc : List (Chromosome × Option ℤ) × List ℕ) =>
      ∀ cs ∈ acc.1, ∀ j : ℤ, cs.2 = some j → cs.1 = popGet pop1 j)
    _ ?_ _ _ ?_
  · intro a r ha cs hcs j hj
    dsimp only at hcs
    rcases List.mem_append.mp hcs with h | h
    · exact ha cs h j hj
    · exact reproduceIsland_src p pop1 r a.2 cs h j hj
  · intro cs hcs
    cases hcs

/-- Every slot of the evaluated `new_pop` stores `F` of its genome. -/
theorem evalNewPop_coherent (F : List Gene → ℚ) (l : List (Chromosome × Option ℤ)) :
    ∀ q ∈ evalNewPop F l, q.1.fitness = F (q.1.shapes.take q.1.n_shapes) := by
  intro q hq
  obtain ⟨cs, _, rfl⟩ := List.mem_map.mp hq
  rfl

theorem scanFold_inv (F : List Gene → ℚ) (L : List (ℕ × (Chromosome × Option ℤ)))
    (hL : ∀ q ∈ L, q.2.1.fitness = F (q.2.1.shapes.take q.2.1.n_shapes)) :
    ∀ (b : Chromosome) (r : BestRef) (pub : List ℚ),
      pub ≠ [] → List.Chain' (· ≤ ·) pub → pub.headD 0 = b.fitness →
      b.fitness = F (b.shapes.take b.n_shapes) →
      ((L.foldl (fun acc q =>
          if q.2.1.fitness < acc.1.fitness
          then (q.2.1, BestRef.new q.1, q.2.1.fitness :: acc.2.2)
          else acc) (b, r, pub)).2.2 ≠ [] ∧
      List.Chain' (· ≤ ·) ((L.foldl (fun acc q =>
          if q.2.1.fitness < acc.1.fitness
          then (q.2.1, BestRef.new q.1, q.2.1.fitness :: acc.2.2)
          else acc) (b, r, pub)).2.2) ∧
      ((L.foldl (fun acc q =>
          if q.2.1.fitness < acc.1.fitness
          then (q.2.1, BestRef.new q.1, q.2.1.fitness :: acc.2.2)
          else acc) (b, r, pub)).2.2.headD 0 =
        (L.foldl (fun acc q =>
          if q.2.1.fitness < acc.1.fitness
          then (q.2.1, BestRef.new q.1, q.2.1.fitness :: acc.2.2)
          else acc) (b, r, pub)).1.fitness) ∧
      ((L.foldl (fun acc q =>
          if q.2.1.fitness < acc.1.fitness
          then (q.2.1, BestRef.new q.1, q.2.1.fitness :: acc.2.2)
          else acc) (b, r, pub)).1.fitness =
        F ((L.foldl (fun acc q =>
          if q.2.1.fitness < acc.1.fitness
          then (q.2.1, BestRef.new q.1, q.2.1.fitness :: acc.2.2)
          else acc) (b, r, pub)).1.shapes.take
          (L.foldl (fun acc q =>
          if q.2.1.fitness < acc.1.fitness
          then (q.2.1, BestRef.new q.1, q.2.1.fitness :: acc.2.2)
          else acc) (b, r, pub)).1.n_shapes)) ∧
      (((L.foldl (fun acc q =>
          if q.2.1.fitness < acc.1.fitness
          then (q.2.1, BestRef.new q.1, q.2.1.fitness :: acc.2.2)
          else acc) (b, r, pub)).1 = b ∧
        (L.foldl (fun acc q =>
          if q.2.1.fitness < acc.1.fitness
          then (q.2.1, BestRef.new q.1, q.2.1.fitness :: acc.2.2)
          else acc) (b, r, pub)).2.1 = r) ∨
        ∃ q ∈ L, (L.foldl (fun acc q =>
          if q.2.1.fitness < acc.1.fitness
          then (q.2.1, BestRef.new q.1, q.2.1.fitness :: acc.2.2)
          else acc) (b, r, pub)).2.1 = .new q.1 ∧
          (L.foldl (fun acc q =>
          if q.2.1.fitness < acc.1.fitness
          then (q.2.1, BestRef.new q.1, q.2.1.fitness :: acc.2.2)
          else acc) (b, r, pub)).1 = q.2.1)) := by
  induction L with
  | nil =>
      intro b r pub h1 h2 h3 h4
      exact ⟨h1, h2, h3, h4, Or.inl ⟨rfl, rfl⟩⟩
  | cons q t ih =>
      intro b r pub h1 h2 h3 h4
      have hq := hL q (List.mem_cons_self q t)
      have hLt : ∀ x ∈ t, x.2.1.fitness = F (x.2.1.shapes.take x.2.1.n_shapes) :=
        fun x hx => hL x (List.mem_cons_of_mem q hx)
      rw [List.foldl_cons]
      by_cases hlt : q.2.1.fitness < b.fitness
      · rw [if_pos hlt]
        obtain ⟨ph, pt, rfl⟩ := List.exists_cons_of_ne_nil h1
        have hph : ph = b.fitness := by simpa using h3
        have hchain : List.Chain' (· ≤ ·) (q.2.1.fitness :: ph :: pt) := by
          rw [List.chain'_cons]
          exact ⟨by rw [hph]; exact le_of_lt hlt, h2⟩
        have := ih hLt q.2.1 (.new q.1) (q.2.1.fitness :: ph :: pt)
          (by simp) hchain (by simp) hq
        refine ⟨this.1, this.2.1, this.2.2.1, this.2.2.2.1, ?_⟩
        rcases this.2.2.2.2 with ⟨hb, hr⟩ | ⟨x, hx, hr, hb⟩
        · exact Or.inr ⟨q, List.mem_cons_self q t, hr, hb⟩
        · exact Or.inr ⟨x, List.mem_cons_of_mem q hx, hr, hb⟩
      · rw [if_neg hlt]
        have := ih hLt b r pub h1 h2 h3 h4
        refine ⟨this.1, this.2.1, this.2.2.1, this.2.2.2.1, ?_⟩
        rcases this.2.2.2.2 with ⟨hb, hr⟩ | ⟨x, hx, hr, hb⟩
        · exact Or.inl ⟨hb, hr⟩
        · exact Or.inr ⟨x, List.mem_cons_of_mem q hx, hr, hb⟩

theorem scanPublish_inv (F : List Gene → ℚ) (evalPop : List (Chromosome × Option ℤ))
    (hE : ∀ q ∈ evalPop, q.1.fitness = F (q.1.shapes.take q.1.n_shapes))
    (b : Chromosome) (r : BestRef) (pub : List ℚ)
    (h1 : pub ≠ []) (h2 : List.Chain' (· ≤ ·) pub)
    (h3 : pub.headD 0 = b.fitness)
    (h4 : b.fitness = F (b.shapes.take b.n_shapes)) :
    (scanPublish evalPop b r pub).2.2 ≠ [] ∧
    List.Chain' (· ≤ ·) (scanPublish evalPop b r pub).2.2 ∧
    (scanPublish evalPop b r pub).2.2.headD 0 = (scanPublish evalPop b r pub).1.fitness ∧
    (scanPublish evalPop b r pub).1.fitness =
      F ((scanPublish evalPop b r pub).1.shapes.take
        (scanPublish evalPop b r pub).1.n_shapes) ∧
    (((scanPublish evalPop b r pub).1 = b ∧ (scanPublish evalPop b r pub).2.1 = r) ∨
      ∃ q ∈ evalPop.enum, (scanPublish evalPop b r pub).2.1 = .new q.1 ∧
        (scanPublish evalPop b r pub).1 = q.2.1) := by
  have hL : ∀ q ∈ evalPop.enum,
      q.2.1.fitness = F (q.2.1.shapes.take q.2.1.n_shapes) := by
    intro q hq
    exact hE q.2 (List.get?_mem (List.mem_enum_iff_get?.mp hq))
  unfold scanPublish
  exact scanFold_inv F evalPop.enum hL b r pub h1 h2 h3 h4

/-- The invariant carried through the engine run: the published list is
non-empty and non-increasing over time, its newest entry is the running
best's fitness, the running best's cached fitness agrees with `F` of its
genome, and the `best` pointer (when alive) dereferences to the tracked
value. -/
def EngineInv (F : List Gene → ℚ) (st : EngineState) : Prop :=
  st.published ≠ [] ∧
  List.Chain' (· ≤ ·) st.published ∧
  st.published.headD 0 = st.bestVal.fitness ∧
  st.bestVal.fitness = F (st.bestVal.shapes.take st.bestVal.n_shapes) ∧
  ∀ b : ℤ, st.bestLoc = some b → popGet st.pop b = st.bestVal

theorem initPop_fold_length (p : GAParams) (F : List Gene → ℚ) :
    ∀ (l : List ℕ) (acc : List Chromosome × List ℕ),
      ((l.foldl (fun acc _ =>
        let gg := genGenes p.nb_shapes.toNat acc.2
        (acc.1 ++ [⟨gg.1, p.nb_shapes.toNat, F (gg.1.take p.nb_shapes.toNat)⟩], gg.2))
        acc).1).length = acc.1.length + l.length := by
  intro l
  induction l with
  | nil => intro acc; simp
  | cons x t ih =>
      intro acc
      rw [List.foldl_cons, ih]
      simp
      omega

theorem initPop_length (p : GAParams) (F : List Gene → ℚ) (rng : List ℕ) :
    (initPop p F rng).1.length = p.population_size.toNat := by
  unfold initPop
  rw [initPop_fold_length]
  simp

theorem initPop_coherent (p : GAParams) (F : List Gene → ℚ) (rng : List ℕ) :
    ∀ c ∈ (initPop p F rng).1, c.fitness = F (c.shapes.take c.n_shapes) := by
  unfold initPop
  refine foldl_preserve
    (fun (acc : List Chromosome × List ℕ) =>
      ∀ c ∈ acc.1, c.fitness = F (c.shapes.take c.n_shapes)) _ ?_ _ _ ?_
  · intro a i ha c hc
    dsimp only at hc
    rcases List.mem_append.mp hc with h | h
    · exact ha c h
    · rw [List.mem_singleton.mp h]
  · intro c hc
    cases hc

theorem gaInit_inv (p : GAParams) (F : List Gene → ℚ) (rng : List ℕ)
    (hpos : 1 ≤ p.population_size) : EngineInv F (gaInit p F rng) := by
  unfold gaInit EngineInv
  dsimp only
  obtain ⟨hbl, hbr⟩ := findBestIdx_bounds (initPop p F rng).1 0 (p.population_size - 1)
    (by omega)
  have hlen := initPop_length p F rng
  have hmem : popGet (initPop p F rng).1 (findBestIdx (initPop p F rng).1 0
      (p.population_size - 1)) ∈ (initPop p F rng).1 :=
    popGet_mem _ _ (by omega) (by omega)
  refine ⟨by simp, by simp, by simp, ?_, ?_⟩
  · exact initPop_coherent p F rng _ hmem
  · intro b hb
    simp only [Option.some_inj] at hb
    rw [← hb]

theorem gaGeneration_inv (p : GAParams) (F : List Gene → ℚ) (st : EngineState)
    (hsafe : MigrationSafe p st) (hInv : EngineInv F st) :
    EngineInv F (gaGeneration p F st) := by
  obtain ⟨h1, h2, h3, h4, h5⟩ := hInv
  have hderef : bestDeref st (migPop p st) = st.bestVal := by
    unfold bestDeref
    rcases hLoc : st.bestLoc with _ | b
    · rfl
    · show popGet (migPop p st) b = st.bestVal
      rw [hsafe b hLoc, h5 b hLoc]
  unfold EngineInv gaGeneration
  dsimp only
  rw [hderef]
  set E := evalNewPop F
    (reproduce p (migPop p st) (islandPartition p.population_size) st.rng).1 with hEdef
  have hEco : ∀ q ∈ E, q.1.fitness = F (q.1.shapes.take q.1.n_shapes) := by
    rw [hEdef]
    exact evalNewPop_coherent F _
  have hshared : ∀ cs ∈ E, ∀ j : ℤ, cs.2 = some j →
      cs.1 = { popGet (migPop p st) j with
        fitness := F ((popGet (migPop p st) j).shapes.take
          (popGet (migPop p st) j).n_shapes) } := by
    intro cs hcs j hj
    rw [hEdef] at hcs
    obtain ⟨orig, horig, hmap⟩ := List.mem_map.mp hcs
    have h2' : orig.2 = some j := by
      rw [← hmap] at hj
      exact hj
    have hsrc := reproduce_src p (migPop p st) (islandPartition p.population_size)
      st.rng orig horig j h2'
    rw [← hmap]
    dsimp only
    rw [hsrc]
  have hbestshared : ∀ b : ℤ, st.bestLoc = some b → ∀ cs ∈ E, cs.2 = some b →
      cs.1 = st.bestVal := by
    intro b hb cs hcs hcs2
    rw [hshared cs hcs b hcs2, hsafe b hb, h5 b hb, ← h4, chrom_set_fitness_self]
  have hb0 : bestValAtScan (migPop p st) E st.bestLoc st.bestVal = st.bestVal := by
    unfold bestValAtScan
    rcases hLoc : st.bestLoc with _ | b
    · rfl
    · cases hfind : E.find? (fun cs => cs.2 = some b) with
      | none =>
          dsimp only
          rw [hfind, hsafe b hLoc, h5 b hLoc]
      | some cs =>
          dsimp only
          rw [hfind]
          have hp := List.find?_some hfind
          simp only [decide_eq_true_eq] at hp
          exact hbestshared b hLoc cs (List.mem_of_find?_eq_some hfind) hp
  rw [hb0]
  obtain ⟨s1, s2, s3, s4, s5⟩ := scanPublish_inv F E hEco st.bestVal
    (.old st.bestLoc) st.published h1 h2 h3 h4
  refine ⟨s1, s2, s3, s4, ?_⟩
  intro b hb
  rcases s5 with ⟨hbv, hr⟩ | ⟨q, hq, hr, hbv⟩
  · rw [hr] at hb
    unfold newBestLoc at hb
    rcases hLoc : st.bestLoc with _ | b'
    · rw [hLoc] at hb
      dsimp only at hb
      cases hb
    · rw [hLoc] at hb
      dsimp only at hb
      unfold carriedSlot at hb
      cases hfind : E.enum.find? (fun q => q.2.2 = some b') with
      | none =>
          rw [hfind] at hb
          cases hb
      | some qq =>
          rw [hfind] at hb
          simp at hb
          have hqqmem := List.mem_of_find?_eq_some hfind
          have hqq2 : qq.2.2 = some b' := by
            have hp := List.find?_some hfind
            simpa only [decide_eq_true_eq] using hp
          have hget := List.mem_enum_iff_get?.mp hqqmem
          have hqmem : qq.2 ∈ E := List.get?_mem hget
          have hqq1 : qq.2.1 = st.bestVal := hbestshared b' hLoc qq.2 hqmem hqq2
          have hmap : (E.map (fun cs => cs.1)).get? qq.1 = some qq.2.1 := by
            rw [List.get?_map, hget]
            rfl
          rw [hLoc] at hbv
          rw [hbv, ← hb]
          unfold popGet
          rw [Int.toNat_natCast, List.getD_eq_getElem?_getD, ← List.get?_eq_getElem?,
            hmap, Option.getD_some, hqq1]
  · rw [hr] at hb
    unfold newBestLoc at hb
    dsimp only at hb
    simp only [Option.some_inj] at hb
    have hget := List.mem_enum_iff_get?.mp hq
    have hmap : (E.map (fun cs => cs.1)).get? q.1 = some q.2.1 := by
      rw [List.get?_map, hget]
      rfl
    rw [hbv, ← hb]
    unfold popGet
    rw [Int.toNat_natCast, List.getD_eq_getElem?_getD, ← List.get?_eq_getElem?,
      hmap, Option.getD_some]

theorem gaRun_inv (p : GAParams) (F : List Gene → ℚ) (rng : List ℕ) (gens : ℕ)
    (hpos : 1 ≤ p.population_size)
    (hsafe : ∀ g < gens, MigrationSafe p ((gaGeneration p F)^[g] (gaInit p F rng))) :
    EngineInv F (gaRun p F rng gens) := by
  unfold gaRun
  induction gens with
  | zero => exact gaInit_inv p F rng hpos
  | succ n ih =>
      rw [Function.iterate_succ_apply']
      exact gaGeneration_inv p F _ (hsafe n (by omega))
        (ih (fun g hg => hsafe g (by omega)))

theorem gaRun_iter (p : GAParams) (F : List Gene → ℚ) (rng : List ℕ) :
    ∀ g : ℕ, ((gaGeneration p F)^[g] (gaInit p F rng)).iter = g + 1 := by
  intro g
  induction g with
  | zero => rfl
  | succ n ih =>
      rw [Function.iterate_succ_apply']
      have hstep : ∀ st : EngineState, (gaGeneration p F st).iter = st.iter + 1 :=
        fun st => rfl
      rw [hstep, ih]

/-- **C9, amended**: over every run in which migration never overwrites
the population slot the running `best` pointer refers to, the fitness
associated with the published best snapshot is non-increasing over
time; the snapshot is rewritten only when a fitness strictly smaller
than the running best's cached fitness is observed.  The proviso is
necessary: migration copies the ring-predecessor's best *into* an
island's worst slot, and when the running best's island has its best
and worst in the same slot, the pointee — genome and cached fitness —
is overwritten in place (see the counterexample). -/
theorem claim_C9_best_monotone (p : GAParams) (F : List Gene → ℚ) (rng : List ℕ)
    (gens : ℕ) (hpos : 1 ≤ p.population_size)
    (hsafe : ∀ g < gens, MigrationSafe p ((gaGeneration p F)^[g] (gaInit p F rng))) :
    PublishedMonotone ((gaRun p F rng gens).published) :=
  (gaRun_inv p F rng gens hpos hsafe).2.1

/-- Parameters of the C9 counterexample run: population 8 (four islands
of two), one gene per chromosome, mutation rate 1, crossover rate 0. -/
def exParams : GAParams := ⟨8, 1, 1, 1, 0, 1000000⟩

/-- The (deterministic) fitness each genome evaluates to in the
counterexample run, keyed on the single gene's red byte. -/
def fitTable (r : ℕ) : ℚ :=
  if r = 10 then 3 else if r = 11 then 4
  else if r = 12 then 1 else if r = 13 then 1
  else if r = 14 then 5 else if r = 15 then 6
  else if r = 16 then 7 else if r = 17 then 8
  else if r = 20 then 2 else 1000

/-- The abstracted render-and-compare fitness of the counterexample. -/
def exF : List Gene → ℚ := fun gs =>
  match gs.head? with
  | some g => fitTable g.r
  | none => 1000

/-- The `rand()` stream of the counterexample run: eight random circles
with red bytes 10..17 (island fitnesses `(3,4) (1,1) (5,6) (7,8)`), four
mutation-free generations, then generation 5 in which island 0's child
mutates its gene's colour to red byte 20 (fitness 2). -/
def exRng : List ℕ :=
  [1, 0, 0, 0, 10, 0, 0, 0] ++ [1, 0, 0, 0, 11, 0, 0, 0] ++
  [1, 0, 0, 0, 12, 0, 0, 0] ++ [1, 0, 0, 0, 13, 0, 0, 0] ++
  [1, 0, 0, 0, 14, 0, 0, 0] ++ [1, 0, 0, 0, 15, 0, 0, 0] ++
  [1, 0, 0, 0, 16, 0, 0, 0] ++ [1, 0, 0, 0, 17, 0, 0, 0] ++
  (List.replicate 16 [0, 0, 0, 0, 0, RAND_MAX]).flatten ++
  [0, 0, 0, 0, 0, 0, 7, 20, 0, 0] ++ [0, 0, 0, 0, 0, RAND_MAX] ++
  [0, 0, 0, 0, 0, RAND_MAX] ++ [0, 0, 0, 0, 0, RAND_MAX]

set_option maxRecDepth 100000 in
/-- **C9, counterexample**: on this concrete run the sequence of
published snapshot fitnesses is `1, 3, 2, 1` over time (newest first in
the list): at generation 5, migration overwrites *in place* the
chromosome the running `best` pointer refers to (its island holds two
equal-fitness chromosomes, so its best slot is also its worst slot),
raising `best->fitness` from 1 to 7; the scan then republishes
fitnesses 3 and 2, both strictly worse than the previously published 1.
The published fitness is not non-increasing. -/
theorem claim_C9_counterexample :
    (gaRun exParams exF exRng 5).published = [1, 2, 3, 1] ∧
    ¬ PublishedMonotone ((gaRun exParams exF exRng 5).published) := by
  have h : (gaRun exParams exF exRng 5).published = [1, 2, 3, 1] := by decide
  refine ⟨h, ?_⟩
  intro hmono
  unfold PublishedMonotone at hmono
  rw [h] at hmono
  rcases List.chain'_cons.mp hmono with ⟨_, h2⟩
  rcases List.chain'_cons.mp h2 with ⟨_, h3⟩
  rcases List.chain'_cons.mp h3 with ⟨h31, _⟩
  norm_num at h31

set_option maxRecDepth 100000 in
/-- Witness for the amended C9: the first three generations of the same
run perform no migration, so the safety hypothesis holds and the
published fitnesses are non-increasing. -/
theorem claim_C9_best_monotone_witness :
    PublishedMonotone ((gaRun exParams exF exRng 3).published) :=
  claim_C9_best_monotone exParams exF exRng 3 (by decide) (by
    intro g hg
    unfold MigrationSafe
    intro b hb
    unfold migPop
    rw [gaRun_iter exParams exF exRng g,
      if_neg (by simp only [MIGRATION_INTERVAL]; omega)])

end GeneticArt
